import Mathlib

/-!
Shallow embedding of `src/protocol.py`: a reliable byte-stream transport
layered over an unreliable datagram substrate.

Python's unbounded integers are modelled as `Nat`; bytes are `Nat` values and
byte strings are `List Nat`.  The datagram socket, wall-clock time and
retransmission expiry are modelled by an explicit oracle (`Net`): a list of
poll outcomes (`none` is a timeout / `socket.error`), a list of caps on how
many bytes each successive `sendto` call transmits (the port can never
transmit more bytes than it was handed), and a list of verdicts for the
successive wall-clock expiry tests.  Fallible code returns `Except String`.
The two `queue.PriorityQueue`s are lists kept sorted by `seq_number`.
-/

/-- Big-endian encoding of `n` into `k` bytes; embedding of Python's
`n.to_bytes(k, "big")`, which additionally requires `n < 256 ^ k`. -/
def toBytesBE : Nat → Nat → List Nat
  | 0, _ => []
  | k + 1, n => toBytesBE k (n / 256) ++ [n % 256]

/-- Big-endian decoding; embedding of Python's `int.from_bytes(bs, "big")`. -/
def fromBytesBE (bs : List Nat) : Nat :=
  bs.foldl (fun a b => a * 256 + b) 0

/-- Embedding of class `TCPSegment` (`protocol.py` lines 6-42).  The
`_sending_time` field is real wall-clock time and is represented by the
expiry oracle in `Net` instead of a field. -/
structure TCPSegment where
  seq_number : Nat
  ack_number : Nat
  data : List Nat
  acknowledged : Bool
deriving DecidableEq

/-- `TCPSegment.service_len` (line 7). -/
def TCPSegment.service_len : Nat := 8 + 8

/-- `TCPSegment.dump` (lines 17-20). -/
def TCPSegment.dump (seg : TCPSegment) : List Nat :=
  toBytesBE 8 seg.seq_number ++ toBytesBE 8 seg.ack_number ++ seg.data

/-- `TCPSegment.load` (lines 22-26).  Python slices `data[:8]`, `data[8:16]`
and `data[16:]`; no length check is performed and no error can be raised. -/
def TCPSegment.load (d : List Nat) : TCPSegment :=
  { seq_number := fromBytesBE (d.take 8)
    ack_number := fromBytesBE ((d.drop 8).take 8)
    data := d.drop TCPSegment.service_len
    acknowledged := false }

/-- The environment oracle: successive socket poll outcomes (`none` models a
timeout), caps on the byte count each successive `sendto` transmits (when the
list is exhausted the port transmits everything it is handed), and verdicts
of the successive expiry tests performed by the retransmit driver. -/
structure Net where
  incoming : List (Option (List Nat))
  sendCaps : List Nat
  expiry : List Bool
deriving DecidableEq

/-- Endpoint state of `MyTCPProtocol` (lines 62-75).  `handed` is a ghost
counter of payload bytes handed to the datagram port across all `sendto`
calls; it has no effect on control flow and exists to state claims about
I/O volume. -/
structure MyTCPProtocol where
  sent_bytes : Nat
  confirmed_bytes : Nat
  received_bytes : Nat
  send_window : List TCPSegment
  recv_window : List TCPSegment
  buffer : List Nat
  handed : Nat
deriving DecidableEq

/-- `self.max_segment_size` (line 66). -/
def max_segment_size : Nat := 1500

/-- `self.window_size` (line 67). -/
def window_size : Nat := max_segment_size * 12

/-- `self.ack_crit_attempts` (line 68). -/
def ack_crit_attempts : Nat := 20

/-- Insertion into a seq-sorted queue; embedding of
`PriorityQueue.put((segment.seq_number, segment))`. -/
def insertSorted (seg : TCPSegment) : List TCPSegment → List TCPSegment
  | [] => [seg]
  | x :: xs =>
    if seg.seq_number < x.seq_number then seg :: x :: xs
    else x :: insertSorted seg xs

/-- Lines 146-149 of `_send_segment`: when the (pre-truncation) payload is
non-empty, truncate it to `just_sent` bytes and park the segment in the send
window. -/
def parkIfNonEmpty (seg : TCPSegment) (just_sent : Nat) (s : MyTCPProtocol) :
    MyTCPProtocol :=
  if seg.data = [] then s
  else
    { s with send_window :=
        insertSorted { seg with data := seg.data.take just_sent } s.send_window }

/-- `MyTCPProtocol._send_segment` (lines 134-151).  `sendto` returns the
number of bytes the port transmitted, modelled as the dump length capped by
the head of the `sendCaps` oracle; `just_sent` is that return value minus the
service length (Python would go negative if fewer than 16 bytes were
transmitted; the `Nat` model truncates at 0, and theorems that depend on the
value restrict to caps of at least the service length). -/
def MyTCPProtocol.sendSegment (seg : TCPSegment) (s : MyTCPProtocol)
    (net : Net) : Except String (Nat × MyTCPProtocol × Net) :=
  let d := seg.dump
  let transmitted := min (net.sendCaps.headD d.length) d.length
  let just_sent := transmitted - TCPSegment.service_len
  let net1 : Net := { net with sendCaps := net.sendCaps.tail }
  let s1 := { s with handed := s.handed + seg.data.length }
  if seg.seq_number = s1.sent_bytes then
    .ok (just_sent,
      parkIfNonEmpty seg just_sent
        { s1 with sent_bytes := s1.sent_bytes + just_sent }, net1)
  else if s1.sent_bytes < seg.seq_number then
    .error "sent too many"
  else
    .ok (just_sent, parkIfNonEmpty seg just_sent s1, net1)

/-- `MyTCPProtocol._shift_send_window` (lines 170-175): drain the head of the
send window while its `seq_number` is below `confirmed`; the first head with
`seq_number >= confirmed` is put back and the loop stops. -/
def shiftSendLoop : List TCPSegment → Nat → List TCPSegment
  | [], _ => []
  | x :: xs, confirmed =>
    if confirmed ≤ x.seq_number then x :: xs
    else shiftSendLoop xs confirmed

/-- Result of the receive-window sweep loop: the remaining window, the
updated `received_bytes` counter and buffer, and the last segment popped
(Python's `earliest_segment` local, `None` when the loop never ran). -/
structure SweepResult where
  window : List TCPSegment
  received : Nat
  buffer : List Nat
  last : Option TCPSegment
deriving DecidableEq

/-- The `while` loop of `MyTCPProtocol._shift_recv_window` (lines 154-165). -/
def shiftRecvLoop : List TCPSegment → Nat → List Nat → SweepResult
  | [], received, buf => ⟨[], received, buf, none⟩
  | x :: xs, received, buf =>
    if x.seq_number < received then
      let r := shiftRecvLoop xs received buf
      ⟨r.window, r.received, r.buffer,
        some (r.last.getD { x with acknowledged := true })⟩
    else if x.seq_number = received then
      let r := shiftRecvLoop xs (received + x.data.length) (buf ++ x.data)
      ⟨r.window, r.received, r.buffer,
        some (r.last.getD { x with acknowledged := true })⟩
    else ⟨x :: xs, received, buf, some x⟩

/-- `MyTCPProtocol._shift_recv_window` (lines 153-168).  Python's final
`if earliest_segment:` tests object truthiness, which for `TCPSegment`
(it defines `__len__`) means: the loop popped at least one segment AND the
last popped segment has non-empty payload. -/
def MyTCPProtocol.shiftRecvWindow (s : MyTCPProtocol) (net : Net) :
    Except String (MyTCPProtocol × Net) :=
  let r := shiftRecvLoop s.recv_window s.received_bytes s.buffer
  let s1 := { s with recv_window := r.window, received_bytes := r.received,
                     buffer := r.buffer }
  match r.last with
  | none => .ok (s1, net)
  | some g =>
    if g.data = [] then .ok (s1, net)
    else
      match MyTCPProtocol.sendSegment
          ⟨s1.sent_bytes, s1.received_bytes, [], false⟩ s1 net with
      | .error e => .error e
      | .ok (_, s2, net2) => .ok (s2, net2)

/-- `MyTCPProtocol._receive_segment` (lines 117-132).  One oracle entry is
consumed per poll; `none` models `socket.error` (timeout).  `recvfrom` is
bounded by `max_segment_size + service_len` bytes. -/
def MyTCPProtocol.receiveSegment (s : MyTCPProtocol) (net : Net) :
    Except String (Bool × MyTCPProtocol × Net) :=
  match net.incoming with
  | [] => .ok (false, s, net)
  | none :: rest => .ok (false, s, { net with incoming := rest })
  | some d :: rest =>
    let seg := TCPSegment.load
      (d.take (max_segment_size + TCPSegment.service_len))
    let net1 : Net := { net with incoming := rest }
    match (if seg.data = [] then .ok (s, net1) else
        MyTCPProtocol.shiftRecvWindow
          { s with recv_window := insertSorted seg s.recv_window } net1) with
    | .error e => .error e
    | .ok (s2, net2) =>
      if s2.confirmed_bytes < seg.ack_number then
        .ok (true,
          { s2 with confirmed_bytes := seg.ack_number,
                    send_window := shiftSendLoop s2.send_window seg.ack_number },
          net2)
      else .ok (true, s2, net2)

/-- `MyTCPProtocol._resend_earliest_segment` (lines 177-184).  The expiry
test `earliest_segment.expired` reads the wall clock and is resolved by the
head of the expiry oracle. -/
def MyTCPProtocol.resendEarliest (force : Bool) (s : MyTCPProtocol)
    (net : Net) : Except String (MyTCPProtocol × Net) :=
  match s.send_window with
  | [] => .ok (s, net)
  | g :: rest =>
    let expd := (!g.acknowledged) && net.expiry.headD false
    let net1 : Net := { net with expiry := net.expiry.tail }
    if expd || force then
      match MyTCPProtocol.sendSegment g { s with send_window := rest } net1 with
      | .error e => .error e
      | .ok (_, s2, net2) => .ok (s2, net2)
    else .ok ({ s with send_window := insertSorted g rest }, net1)

/-- The `while` loop of `MyTCPProtocol.recv` (lines 107-111).  `fuel` bounds
how many polls the model may perform; `ok none` models the call still
blocking after the oracle is exhausted. -/
def MyTCPProtocol.recvLoop (fuel n : Nat) (data : List Nat)
    (s : MyTCPProtocol) (net : Net) :
    Except String (Option (List Nat × MyTCPProtocol × Net)) :=
  if data.length < n then
    match fuel with
    | 0 => .ok none
    | fuel + 1 =>
      match MyTCPProtocol.receiveSegment s net with
      | .error e => .error e
      | .ok (_, s1, net1) =>
        let rb := min n s1.buffer.length
        MyTCPProtocol.recvLoop fuel n (data ++ s1.buffer.take rb)
          { s1 with buffer := s1.buffer.drop rb } net1
  else .ok (some (data, s, net))

/-- `MyTCPProtocol.recv` (lines 102-115). -/
def MyTCPProtocol.recv (fuel n : Nat) (s : MyTCPProtocol) (net : Net) :
    Except String (Option (List Nat × MyTCPProtocol × Net)) :=
  let rb := min n s.buffer.length
  MyTCPProtocol.recvLoop fuel n (s.buffer.take rb)
    { s with buffer := s.buffer.drop rb } net

/-- The `while` loop of `MyTCPProtocol.send` (lines 80-98).  The result also
exposes the loop's final locals `data` and `attempt` so that the exit
condition can be stated; `MyTCPProtocol.send` projects them away.  Python's
`window_lock = sent - confirmed > window_size` compares (possibly negative)
integers; `Nat` truncated subtraction agrees with it because a negative
difference is never `> window_size`. -/
def MyTCPProtocol.sendLoop (fuel : Nat) (data : List Nat)
    (sent_data_len attempt : Nat) (s : MyTCPProtocol) (net : Net) :
    Except String (Option (List Nat × Nat × Nat × MyTCPProtocol × Net)) :=
  if (data ≠ [] ∨ s.confirmed_bytes < s.sent_bytes) ∧
      attempt < ack_crit_attempts then
    match fuel with
    | 0 => .ok none
    | fuel + 1 =>
      if s.sent_bytes - s.confirmed_bytes ≤ window_size ∧ data ≠ [] then
        let right_border := min max_segment_size data.length
        match MyTCPProtocol.sendSegment
            ⟨s.sent_bytes, s.received_bytes, data.take right_border, false⟩
            s net with
        | .error e => .error e
        | .ok (sent_length, s1, net1) =>
          match MyTCPProtocol.receiveSegment s1 net1 with
          | .error e => .error e
          | .ok (_, s2, net2) =>
            match MyTCPProtocol.resendEarliest false s2 net2 with
            | .error e => .error e
            | .ok (s3, net3) =>
              MyTCPProtocol.sendLoop fuel (data.drop sent_length)
                (sent_data_len + sent_length) attempt s3 net3
      else
        match MyTCPProtocol.receiveSegment s net with
        | .error e => .error e
        | .ok (got, s1, net1) =>
          let attempt1 := if got then 0 else attempt + 1
          match MyTCPProtocol.resendEarliest false s1 net1 with
          | .error e => .error e
          | .ok (s2, net2) =>
            MyTCPProtocol.sendLoop fuel data sent_data_len attempt1 s2 net2
  else .ok (some (data, sent_data_len, attempt, s, net))

/-- `MyTCPProtocol.send` (lines 77-100). -/
def MyTCPProtocol.send (fuel : Nat) (data : List Nat) (s : MyTCPProtocol)
    (net : Net) : Except String (Option (Nat × MyTCPProtocol × Net)) :=
  match MyTCPProtocol.sendLoop fuel data 0 0 s net with
  | .error e => .error e
  | .ok none => .ok none
  | .ok (some (_, sent_data_len, _, s1, net1)) => .ok (some (sent_data_len, s1, net1))

/-! ## Projection helpers and concrete states used by evaluations -/

/-- The freshly constructed endpoint (lines 70-75): all counters zero, both
windows and the buffer empty. -/
def initEndpoint : MyTCPProtocol := ⟨0, 0, 0, [], [], [], 0⟩

/-- Projection: the byte string returned by a completed `recv` call. -/
def recvBytesOf (r : Except String (Option (List Nat × MyTCPProtocol × Net))) :
    Option (List Nat) :=
  match r with
  | .ok (some (bs, _, _)) => some bs
  | _ => none

/-- Projection: the outcome of `_receive_segment` when no error is raised. -/
def receiveOut (s : MyTCPProtocol) (net : Net) :
    Option (Bool × MyTCPProtocol × Net) :=
  match MyTCPProtocol.receiveSegment s net with
  | .ok x => some x
  | .error _ => none

/-- Projection: the returned byte count and the final ghost `handed` counter
of a completed `send` call. -/
def sendCountHandedOf
    (r : Except String (Option (Nat × MyTCPProtocol × Net))) :
    Option (Nat × Nat) :=
  match r with
  | .ok (some (n, s, _)) => some (n, s.handed)
  | _ => none

/-- Projection: the send window right after a successful `_send_segment`. -/
def sendWindowAfterSendSegment (seg : TCPSegment) (s : MyTCPProtocol)
    (net : Net) : Option (List TCPSegment) :=
  match MyTCPProtocol.sendSegment seg s net with
  | .ok (_, s1, _) => some s1.send_window
  | .error _ => none

/-! ## Byte-codec lemmas -/

theorem toBytesBE_length (k : Nat) : ∀ n, (toBytesBE k n).length = k := by
  induction k with
  | zero => intro n; rfl
  | succ k ih => intro n; simp [toBytesBE, ih]

theorem fromBytesBE_snoc (bs : List Nat) (b : Nat) :
    fromBytesBE (bs ++ [b]) = fromBytesBE bs * 256 + b := by
  simp [fromBytesBE]

theorem fromBytesBE_toBytesBE (k : Nat) :
    ∀ n, n < 256 ^ k → fromBytesBE (toBytesBE k n) = n := by
  induction k with
  | zero =>
    intro n h
    simp only [pow_zero, Nat.lt_one_iff] at h
    subst h; rfl
  | succ k ih =>
    intro n h
    have hd : n / 256 < 256 ^ k := by
      apply Nat.div_lt_of_lt_mul
      have hp : (256 : Nat) ^ (k + 1) = 256 ^ k * 256 := pow_succ 256 k
      omega
    rw [toBytesBE, fromBytesBE_snoc, ih (n / 256) hd]
    omega

theorem TCPSegment.dump_length (seg : TCPSegment) :
    seg.dump.length = 16 + seg.data.length := by
  simp [TCPSegment.dump, toBytesBE_length]
  omega

/-! ## Codec round-trip (claim C9) -/

/-- C9: codec round-trip.  For every segment with `seq < 2^64`, `ack < 2^64`
and any payload, `TCPSegment.load (TCPSegment.dump seg)` yields the same
`seq`, `ack` and payload, and the encoding's length is 16 plus the payload
length. -/
theorem C9_codec_roundtrip (seg : TCPSegment)
    (h1 : seg.seq_number < 2 ^ 64) (h2 : seg.ack_number < 2 ^ 64) :
    (TCPSegment.load seg.dump).seq_number = seg.seq_number ∧
    (TCPSegment.load seg.dump).ack_number = seg.ack_number ∧
    (TCPSegment.load seg.dump).data = seg.data ∧
    seg.dump.length = 16 + seg.data.length := by
  have e1 : (toBytesBE 8 seg.seq_number).length = 8 := toBytesBE_length 8 _
  have e2 : (toBytesBE 8 seg.ack_number).length = 8 := toBytesBE_length 8 _
  have hb : (2 : Nat) ^ 64 = 256 ^ 8 := by norm_num
  refine ⟨?_, ?_, ?_, seg.dump_length⟩
  · show fromBytesBE (seg.dump.take 8) = seg.seq_number
    rw [TCPSegment.dump, List.append_assoc,
      List.take_append_of_le_length (by omega),
      List.take_of_length_le (by omega)]
    exact fromBytesBE_toBytesBE 8 _ (hb ▸ h1)
  · show fromBytesBE ((seg.dump.drop 8).take 8) = seg.ack_number
    rw [TCPSegment.dump, List.append_assoc,
      List.drop_append_of_le_length (by omega),
      List.drop_eq_nil_of_le (by omega), List.nil_append,
      List.take_append_of_le_length (by omega),
      List.take_of_length_le (by omega)]
    exact fromBytesBE_toBytesBE 8 _ (hb ▸ h2)
  · show seg.dump.drop TCPSegment.service_len = seg.data
    have e12 : (toBytesBE 8 seg.seq_number ++ toBytesBE 8 seg.ack_number).length
        = 16 := by simp [e1, e2]
    rw [TCPSegment.dump, TCPSegment.service_len,
      List.drop_append_of_le_length (by omega),
      List.drop_eq_nil_of_le (by omega), List.nil_append]

/-- Witness for C9 at `seq = 3`, `ack = 5`, payload `[1, 2]`. -/
theorem C9_codec_roundtrip_witness :
    (TCPSegment.load (TCPSegment.dump ⟨3, 5, [1, 2], false⟩)).seq_number = 3 ∧
    (TCPSegment.load (TCPSegment.dump ⟨3, 5, [1, 2], false⟩)).ack_number = 5 ∧
    (TCPSegment.load (TCPSegment.dump ⟨3, 5, [1, 2], false⟩)).data = [1, 2] ∧
    (TCPSegment.dump ⟨3, 5, [1, 2], false⟩).length =
      16 + ([1, 2] : List Nat).length :=
  C9_codec_roundtrip ⟨3, 5, [1, 2], false⟩ (by norm_num) (by norm_num)

/-! ## Concrete executions (claims C1, C2, C3, C4, C10: falsifying runs) -/

/-- C1: the claim (and the spec) say `recv n` returns exactly `n` bytes.
The code violates it: starting from buffer `[1, 2, 3]` with
`received_bytes = 3`, the call `recv 5` that picks up one in-order 4-byte
segment from the port returns 7 bytes.  The loop (line 109-110) adds
`min n (buffer length)` bytes instead of `min (n - collected) (buffer
length)`, so the whole freshly delivered payload is appended to the 3 bytes
already collected. -/
theorem C1_recv_returns_more_than_requested :
    recvBytesOf (MyTCPProtocol.recv 2 5 ⟨0, 0, 3, [], [], [1, 2, 3], 0⟩
        ⟨[some (toBytesBE 8 3 ++ toBytesBE 8 0 ++ [4, 5, 6, 7])], [], []⟩)
      = some [1, 2, 3, 4, 5, 6, 7] ∧
    ([1, 2, 3, 4, 5, 6, 7] : List Nat).length ≠ 5 :=
  ⟨rfl, by decide⟩

/-- C2 counterexample: a 10-byte datagram (shorter than the 16-byte header)
does not make `TCPSegment.load` fail and is not dropped by the receive path:
it is decoded (seq 0, ack 5, empty payload), the poll returns `True`, and its
ack field advances `confirmed_bytes` from 0 to 5. -/
theorem C2_short_datagram_processed_not_dropped :
    receiveOut initEndpoint ⟨[some [0, 0, 0, 0, 0, 0, 0, 0, 0, 5]], [], []⟩
      = some (true, ⟨0, 5, 0, [], [], [], 0⟩, ⟨[], [], []⟩) := rfl

/-- C4 counterexample: an incoming datagram whose ack field (5) exceeds the
local `sent_bytes` counter (0) is accepted verbatim by `_receive_segment`
(line 128-129 has no cap), leaving `confirmed_bytes = 5 > sent_bytes = 0`. -/
theorem C4_rogue_ack_exceeds_sent :
    receiveOut initEndpoint ⟨[some (toBytesBE 8 0 ++ toBytesBE 8 5)], [], []⟩
      = some (true, ⟨0, 5, 0, [], [], [], 0⟩, ⟨[], [], []⟩) ∧
    ¬ ((⟨0, 5, 0, [], [], [], 0⟩ : MyTCPProtocol).confirmed_bytes ≤
        (⟨0, 5, 0, [], [], [], 0⟩ : MyTCPProtocol).sent_bytes) :=
  ⟨rfl, by decide⟩

/-- C10 counterexample: `_send_segment` tests `len(segment)` before
truncating (lines 146-147), so when the port transmits only the 16 header
bytes of a 17-byte datagram (`just_sent = 0`), the originally non-empty
segment is truncated to an empty payload and still parked: an empty-payload
segment ends up buffered in the send window. -/
theorem C10_partial_send_parks_empty_segment :
    sendWindowAfterSendSegment ⟨0, 0, [42], false⟩ initEndpoint ⟨[], [16], []⟩
      = some [⟨0, 0, [], false⟩] ∧
    (⟨0, 0, [], false⟩ : TCPSegment).data = [] :=
  ⟨rfl, rfl⟩

/-- C3 counterexample: a `send` call that emits 2 payload bytes, retransmits
them once (expiry oracle `true`), and then receives the cumulative ACK,
returns 2 — but 4 payload bytes were handed to the datagram port during the
call (the ghost `handed` counter advances from 0 to 4).  The returned count
excludes retransmitted bytes. -/
theorem C3_retransmitted_bytes_not_in_return_count :
    sendCountHandedOf (MyTCPProtocol.send 3 [7, 7] initEndpoint
        ⟨[none, some (toBytesBE 8 0 ++ toBytesBE 8 2)], [], [true]⟩)
      = some (2, 4) ∧ (2 : Nat) ≠ 4 :=
  ⟨rfl, by decide⟩

/-! ## Receive-window sweep (claim C6) -/

/-- C6: the receive-window sweep, applied to any seq-sorted recv-window and
`received_bytes` counter, delivers some byte string `d` to the buffer and
advances the counter by exactly `d.length` (in-order segments appended,
stale ones discarded), leaves as remaining window an untouched suffix of the
input whose every segment has `seq` strictly above the new counter (the
lowest-seq segment was popped and reinserted before stopping), and pops at
least one segment exactly when the window was non-empty. -/
theorem C6_recv_window_sweep (w : List TCPSegment) (r : Nat) (buf : List Nat)
    (hs : List.Pairwise (fun a b => a.seq_number ≤ b.seq_number) w) :
    ∃ d : List Nat,
      (shiftRecvLoop w r buf).buffer = buf ++ d ∧
      (shiftRecvLoop w r buf).received = r + d.length ∧
      ((shiftRecvLoop w r buf).window <:+ w) ∧
      (∀ g ∈ (shiftRecvLoop w r buf).window,
        (shiftRecvLoop w r buf).received < g.seq_number) ∧
      ((shiftRecvLoop w r buf).last = none ↔ w = []) := by
  induction w generalizing r buf with
  | nil =>
    refine ⟨[], by simp [shiftRecvLoop], by simp [shiftRecvLoop], ?_,
      by simp [shiftRecvLoop], by simp [shiftRecvLoop]⟩
    simp [shiftRecvLoop]
  | cons x xs ih =>
    have hx := (List.pairwise_cons.mp hs).1
    have hxs := (List.pairwise_cons.mp hs).2
    simp only [shiftRecvLoop]
    split
    · obtain ⟨d, hb, hr, hsuf, hall, _⟩ := ih r buf hxs
      exact ⟨d, hb, hr, hsuf.trans (List.suffix_cons x xs), hall, by simp⟩
    · split
      · obtain ⟨d, hb, hr, hsuf, hall, _⟩ :=
          ih (r + x.data.length) (buf ++ x.data) hxs
        refine ⟨x.data ++ d, ?_, ?_, hsuf.trans (List.suffix_cons x xs),
          hall, by simp⟩
        · simpa [List.append_assoc] using hb
        · simpa [Nat.add_assoc] using hr
      · rename_i h1 h2
        refine ⟨[], by simp, by simp, List.suffix_refl _, ?_, by simp⟩
        intro g hg
        simp only [SweepResult.received]
        rcases List.mem_cons.mp hg with rfl | hg
        · omega
        · exact lt_of_lt_of_le (by omega) (hx g hg)

/-- Witness for C6 on the singleton sorted window `[⟨0, 0, [9], false⟩]`
with `received = 0` and an empty buffer. -/
theorem C6_recv_window_sweep_witness :
    ∃ d : List Nat,
      (shiftRecvLoop [⟨0, 0, [9], false⟩] 0 []).buffer = [] ++ d ∧
      (shiftRecvLoop [⟨0, 0, [9], false⟩] 0 []).received = 0 + d.length ∧
      ((shiftRecvLoop [⟨0, 0, [9], false⟩] 0 []).window <:+
        [⟨0, 0, [9], false⟩]) ∧
      (∀ g ∈ (shiftRecvLoop [⟨0, 0, [9], false⟩] 0 []).window,
        (shiftRecvLoop [⟨0, 0, [9], false⟩] 0 []).received < g.seq_number) ∧
      ((shiftRecvLoop [⟨0, 0, [9], false⟩] 0 []).last = none ↔
        ([⟨0, 0, [9], false⟩] : List TCPSegment) = []) :=
  C6_recv_window_sweep [⟨0, 0, [9], false⟩] 0 [] (by simp)

/-! ## Short-datagram behaviour (claim C2, amended) -/

/-- C2 (amended): segment decoding never fails.  A datagram shorter than the
16-byte header decodes to an empty payload (seq and ack taken big-endian from
whatever of the first 8 and next 8 bytes are present), and the receive path
does not drop it: the poll returns `True`, the recv-window, buffer and
`received_bytes` are untouched, `sent_bytes` is unchanged, and the datagram's
ack field is recorded exactly like that of a well-formed pure ACK
(`confirmed_bytes` becomes the max of its old value and the decoded ack).
Inputs of length at least 16 decode as the original claim states (their
payload is the remainder after the 16-byte header; see C9). -/
theorem C2_short_datagram_decoded_and_processed (bs : List Nat)
    (s : MyTCPProtocol) (net : Net) (rest : List (Option (List Nat)))
    (hlen : bs.length < 16) (hin : net.incoming = some bs :: rest) :
    (TCPSegment.load bs).data = [] ∧
    ∃ s' : MyTCPProtocol,
      MyTCPProtocol.receiveSegment s net =
        .ok (true, s', { net with incoming := rest }) ∧
      s'.recv_window = s.recv_window ∧
      s'.buffer = s.buffer ∧
      s'.received_bytes = s.received_bytes ∧
      s'.sent_bytes = s.sent_bytes ∧
      s'.confirmed_bytes =
        max s.confirmed_bytes (TCPSegment.load bs).ack_number := by
  obtain ⟨inc, caps, exp⟩ := net
  simp only at hin
  subst hin
  have htake : bs.take (max_segment_size + TCPSegment.service_len) = bs :=
    List.take_of_length_le (by
      simp only [max_segment_size, TCPSegment.service_len]; omega)
  have hdata : (TCPSegment.load bs).data = [] := by
    simp only [TCPSegment.load, TCPSegment.service_len]
    exact List.drop_eq_nil_of_le (by omega)
  refine ⟨hdata, ?_⟩
  by_cases hc : s.confirmed_bytes < (TCPSegment.load bs).ack_number
  · refine ⟨⟨s.sent_bytes, (TCPSegment.load bs).ack_number, s.received_bytes,
      shiftSendLoop s.send_window (TCPSegment.load bs).ack_number,
      s.recv_window, s.buffer, s.handed⟩, ?_, rfl, rfl, rfl, rfl, ?_⟩
    · simp [MyTCPProtocol.receiveSegment, htake, hdata, hc]
    · show (TCPSegment.load bs).ack_number =
        max s.confirmed_bytes (TCPSegment.load bs).ack_number
      omega
  · refine ⟨s, ?_, rfl, rfl, rfl, rfl, ?_⟩
    · simp [MyTCPProtocol.receiveSegment, htake, hdata, hc]
    · show s.confirmed_bytes =
        max s.confirmed_bytes (TCPSegment.load bs).ack_number
      omega

/-- Witness for C2 (amended) on the concrete 10-byte datagram
`[0,0,0,0,0,0,0,0,0,5]` arriving at a fresh endpoint. -/
theorem C2_short_datagram_decoded_and_processed_witness :
    (TCPSegment.load [0, 0, 0, 0, 0, 0, 0, 0, 0, 5]).data = [] ∧
    ∃ s' : MyTCPProtocol,
      MyTCPProtocol.receiveSegment initEndpoint
          ⟨[some [0, 0, 0, 0, 0, 0, 0, 0, 0, 5]], [], []⟩ =
        .ok (true, s', ⟨[], [], []⟩) ∧
      s'.recv_window = initEndpoint.recv_window ∧
      s'.buffer = initEndpoint.buffer ∧
      s'.received_bytes = initEndpoint.received_bytes ∧
      s'.sent_bytes = initEndpoint.sent_bytes ∧
      s'.confirmed_bytes = max initEndpoint.confirmed_bytes
        (TCPSegment.load [0, 0, 0, 0, 0, 0, 0, 0, 0, 5]).ack_number :=
  C2_short_datagram_decoded_and_processed [0, 0, 0, 0, 0, 0, 0, 0, 0, 5]
    initEndpoint ⟨[some [0, 0, 0, 0, 0, 0, 0, 0, 0, 5]], [], []⟩ []
    (by decide) rfl

/-! ## Anatomy of the emit path -/

theorem mem_insertSorted (x seg : TCPSegment) :
    ∀ l : List TCPSegment, (x ∈ insertSorted seg l ↔ x = seg ∨ x ∈ l) := by
  intro l
  induction l with
  | nil => simp [insertSorted]
  | cons y ys ih =>
    simp only [insertSorted]
    split
    · simp [List.mem_cons]
    · simp only [List.mem_cons, ih]
      tauto

theorem mem_shiftSendLoop (x : TCPSegment) :
    ∀ (l : List TCPSegment) (c : Nat), x ∈ shiftSendLoop l c → x ∈ l := by
  intro l
  induction l with
  | nil => intro c h; exact h
  | cons y ys ih =>
    intro c
    simp only [shiftSendLoop]
    split
    · exact fun h => h
    · exact fun h => List.mem_cons_of_mem y (ih c h)

theorem parkIfNonEmpty_sent_bytes (seg : TCPSegment) (js : Nat)
    (s : MyTCPProtocol) : (parkIfNonEmpty seg js s).sent_bytes = s.sent_bytes := by
  unfold parkIfNonEmpty; split <;> rfl

theorem parkIfNonEmpty_confirmed_bytes (seg : TCPSegment) (js : Nat)
    (s : MyTCPProtocol) :
    (parkIfNonEmpty seg js s).confirmed_bytes = s.confirmed_bytes := by
  unfold parkIfNonEmpty; split <;> rfl

theorem parkIfNonEmpty_received_bytes (seg : TCPSegment) (js : Nat)
    (s : MyTCPProtocol) :
    (parkIfNonEmpty seg js s).received_bytes = s.received_bytes := by
  unfold parkIfNonEmpty; split <;> rfl

theorem parkIfNonEmpty_buffer (seg : TCPSegment) (js : Nat)
    (s : MyTCPProtocol) : (parkIfNonEmpty seg js s).buffer = s.buffer := by
  unfold parkIfNonEmpty; split <;> rfl

theorem parkIfNonEmpty_recv_window (seg : TCPSegment) (js : Nat)
    (s : MyTCPProtocol) :
    (parkIfNonEmpty seg js s).recv_window = s.recv_window := by
  unfold parkIfNonEmpty; split <;> rfl

theorem parkIfNonEmpty_handed (seg : TCPSegment) (js : Nat)
    (s : MyTCPProtocol) : (parkIfNonEmpty seg js s).handed = s.handed := by
  unfold parkIfNonEmpty; split <;> rfl

theorem parkIfNonEmpty_window_of_empty (seg : TCPSegment) (js : Nat)
    (s : MyTCPProtocol) (h : seg.data = []) :
    (parkIfNonEmpty seg js s).send_window = s.send_window := by
  unfold parkIfNonEmpty
  rw [if_pos h]

theorem parkIfNonEmpty_window_of_ne (seg : TCPSegment) (js : Nat)
    (s : MyTCPProtocol) (h : seg.data ≠ []) :
    (parkIfNonEmpty seg js s).send_window =
      insertSorted ⟨seg.seq_number, seg.ack_number, seg.data.take js,
        seg.acknowledged⟩ s.send_window := by
  unfold parkIfNonEmpty
  rw [if_neg h]

/-- Everything a successful `_send_segment` call does, in one statement. -/
theorem sendSegment_anatomy (seg : TCPSegment) (s : MyTCPProtocol) (net : Net)
    (js : Nat) (s' : MyTCPProtocol) (net' : Net)
    (h : MyTCPProtocol.sendSegment seg s net = .ok (js, s', net')) :
    js ≤ seg.data.length ∧
    net' = ⟨net.incoming, net.sendCaps.tail, net.expiry⟩ ∧
    s'.confirmed_bytes = s.confirmed_bytes ∧
    s'.received_bytes = s.received_bytes ∧
    s'.buffer = s.buffer ∧
    s'.recv_window = s.recv_window ∧
    s'.handed = s.handed + seg.data.length ∧
    seg.seq_number ≤ s.sent_bytes ∧
    (seg.seq_number = s.sent_bytes → s'.sent_bytes = s.sent_bytes + js) ∧
    (seg.seq_number ≠ s.sent_bytes → s'.sent_bytes = s.sent_bytes) ∧
    (seg.data = [] → s'.send_window = s.send_window) ∧
    (seg.data ≠ [] → s'.send_window =
      insertSorted ⟨seg.seq_number, seg.ack_number, seg.data.take js,
        seg.acknowledged⟩ s.send_window) := by
  have hdl : seg.dump.length = 16 + seg.data.length := seg.dump_length
  simp only [MyTCPProtocol.sendSegment] at h
  split at h
  · rename_i hseq
    rw [Except.ok.injEq, Prod.mk.injEq, Prod.mk.injEq] at h
    obtain ⟨hjs, hs', hnet'⟩ := h
    subst hjs hs' hnet'
    refine ⟨by simp only [TCPSegment.service_len]; omega, rfl, ?_⟩
    simp only [parkIfNonEmpty_sent_bytes, parkIfNonEmpty_confirmed_bytes,
      parkIfNonEmpty_received_bytes, parkIfNonEmpty_buffer,
      parkIfNonEmpty_recv_window, parkIfNonEmpty_handed]
    refine ⟨trivial, trivial, trivial, trivial, trivial, le_of_eq hseq,
      fun _ => trivial, fun hne => absurd hseq hne, ?_, ?_⟩
    · exact fun hd => parkIfNonEmpty_window_of_empty seg _ _ hd
    · exact fun hd => parkIfNonEmpty_window_of_ne seg _ _ hd
  · split at h
    · exact absurd h (by simp)
    · rename_i hseq hlt
      rw [Except.ok.injEq, Prod.mk.injEq, Prod.mk.injEq] at h
      obtain ⟨hjs, hs', hnet'⟩ := h
      subst hjs hs' hnet'
      refine ⟨by simp only [TCPSegment.service_len]; omega, rfl, ?_⟩
      simp only [parkIfNonEmpty_sent_bytes, parkIfNonEmpty_confirmed_bytes,
        parkIfNonEmpty_received_bytes, parkIfNonEmpty_buffer,
        parkIfNonEmpty_recv_window, parkIfNonEmpty_handed]
      refine ⟨trivial, trivial, trivial, trivial, trivial, by omega,
        fun he => absurd he hseq, fun _ => trivial, ?_, ?_⟩
      · exact fun hd => parkIfNonEmpty_window_of_empty seg _ _ hd
      · exact fun hd => parkIfNonEmpty_window_of_ne seg _ _ hd

/-- `_send_segment` raises exactly when the segment's `seq` exceeds the
current `sent_bytes` counter. -/
theorem sendSegment_error_iff (seg : TCPSegment) (s : MyTCPProtocol)
    (net : Net) :
    (∃ e, MyTCPProtocol.sendSegment seg s net = .error e) ↔
      s.sent_bytes < seg.seq_number := by
  simp only [MyTCPProtocol.sendSegment]
  constructor
  · rintro ⟨e, he⟩
    split at he
    · exact absurd he (by simp)
    · split at he
      · assumption
      · exact absurd he (by simp)
  · intro hlt
    refine ⟨"sent too many", ?_⟩
    rw [if_neg (by omega), if_pos (by simpa using hlt)]

theorem sendSegment_js (seg : TCPSegment) (s : MyTCPProtocol) (net : Net)
    (js : Nat) (s' : MyTCPProtocol) (net' : Net)
    (h : MyTCPProtocol.sendSegment seg s net = .ok (js, s', net')) :
    js = min (net.sendCaps.headD seg.dump.length) seg.dump.length -
      TCPSegment.service_len := by
  simp only [MyTCPProtocol.sendSegment] at h
  split at h
  · rw [Except.ok.injEq, Prod.mk.injEq] at h
    exact h.1.symm
  · split at h
    · exact absurd h (by simp)
    · rw [Except.ok.injEq, Prod.mk.injEq] at h
      exact h.1.symm

/-- C8: for every segment passed to `_send_segment`: when its `seq` equals
the current `sent_bytes`, the call succeeds, `sent_bytes` advances by the
actually-transmitted payload count (port return value minus the 16-byte
service length) and the parked copy of a non-empty segment carries exactly
the payload truncated to that count; when `seq` is strictly greater an error
("sent too many", the InvariantViolation) is raised; and when `seq` is
strictly smaller (a retransmission) the call succeeds with `sent_bytes`
unchanged.  Together with the first and third cases this shows the error is
raised in exactly the `seq > sent_bytes` case. -/
theorem C8_send_segment_cases (seg : TCPSegment) (s : MyTCPProtocol)
    (net : Net) :
    (seg.seq_number = s.sent_bytes →
      ∃ js s' net', MyTCPProtocol.sendSegment seg s net = .ok (js, s', net') ∧
        js = min (net.sendCaps.headD seg.dump.length) seg.dump.length -
          TCPSegment.service_len ∧
        s'.sent_bytes = s.sent_bytes + js ∧
        (seg.data ≠ [] → ⟨seg.seq_number, seg.ack_number, seg.data.take js,
          seg.acknowledged⟩ ∈ s'.send_window)) ∧
    (s.sent_bytes < seg.seq_number →
      ∃ e, MyTCPProtocol.sendSegment seg s net = .error e) ∧
    (seg.seq_number < s.sent_bytes →
      ∃ js s' net', MyTCPProtocol.sendSegment seg s net = .ok (js, s', net') ∧
        s'.sent_bytes = s.sent_bytes ∧
        (seg.data ≠ [] → ⟨seg.seq_number, seg.ack_number, seg.data.take js,
          seg.acknowledged⟩ ∈ s'.send_window)) := by
  refine ⟨?_, fun hlt => (sendSegment_error_iff seg s net).mpr hlt, ?_⟩
  · intro hseq
    cases hres : MyTCPProtocol.sendSegment seg s net with
    | error e =>
      exact absurd ((sendSegment_error_iff seg s net).mp ⟨e, hres⟩) (by omega)
    | ok trip =>
      obtain ⟨js, s', net'⟩ := trip
      obtain ⟨-, -, -, -, -, -, -, -, hadv, -, -, hwin⟩ :=
        sendSegment_anatomy seg s net js s' net' hres
      refine ⟨js, s', net', rfl, sendSegment_js seg s net js s' net' hres,
        hadv hseq, fun hd => ?_⟩
      rw [hwin hd]
      exact (mem_insertSorted _ _ _).mpr (Or.inl rfl)
  · intro hlt
    cases hres : MyTCPProtocol.sendSegment seg s net with
    | error e =>
      exact absurd ((sendSegment_error_iff seg s net).mp ⟨e, hres⟩) (by omega)
    | ok trip =>
      obtain ⟨js, s', net'⟩ := trip
      obtain ⟨-, -, -, -, -, -, -, -, -, hkeep, -, hwin⟩ :=
        sendSegment_anatomy seg s net js s' net' hres
      refine ⟨js, s', net', rfl, hkeep (by omega), fun hd => ?_⟩
      rw [hwin hd]
      exact (mem_insertSorted _ _ _).mpr (Or.inl rfl)

/-- Witness for C8: the emit case at a fresh endpoint, segment
`⟨0, 0, [1], false⟩` whose `seq` equals `sent_bytes = 0`. -/
theorem C8_send_segment_cases_witness :
    ∃ js s' net', MyTCPProtocol.sendSegment ⟨0, 0, [1], false⟩ initEndpoint
        ⟨[], [], []⟩ = .ok (js, s', net') ∧
      js = min ((⟨[], [], []⟩ : Net).sendCaps.headD
          (TCPSegment.dump ⟨0, 0, [1], false⟩).length)
          (TCPSegment.dump ⟨0, 0, [1], false⟩).length -
        TCPSegment.service_len ∧
      s'.sent_bytes = initEndpoint.sent_bytes + js ∧
      ((⟨0, 0, [1], false⟩ : TCPSegment).data ≠ [] →
        ⟨(⟨0, 0, [1], false⟩ : TCPSegment).seq_number,
          (⟨0, 0, [1], false⟩ : TCPSegment).ack_number,
          (⟨0, 0, [1], false⟩ : TCPSegment).data.take js,
          (⟨0, 0, [1], false⟩ : TCPSegment).acknowledged⟩ ∈ s'.send_window) :=
  (C8_send_segment_cases ⟨0, 0, [1], false⟩ initEndpoint ⟨[], [], []⟩).1 rfl


/-! ## Anatomy of the receive path and the retransmit driver -/

theorem shiftRecvLoop_window_mem (x : TCPSegment) :
    ∀ (w : List TCPSegment) (r : Nat) (b : List Nat),
      x ∈ (shiftRecvLoop w r b).window → x ∈ w := by
  intro w
  induction w with
  | nil => intro r b h; exact absurd h (by simp [shiftRecvLoop])
  | cons y ys ih =>
    intro r b
    simp only [shiftRecvLoop]
    split
    · exact fun h => List.mem_cons_of_mem y (ih r b h)
    · split
      · exact fun h => List.mem_cons_of_mem y (ih _ _ h)
      · exact fun h => h

theorem shiftRecvLoop_received_mono :
    ∀ (w : List TCPSegment) (r : Nat) (b : List Nat),
      r ≤ (shiftRecvLoop w r b).received := by
  intro w
  induction w with
  | nil => intro r b; exact le_refl r
  | cons y ys ih =>
    intro r b
    simp only [shiftRecvLoop]
    split
    · exact ih r b
    · split
      · exact le_trans (by omega) (ih (r + y.data.length) (b ++ y.data))
      · exact le_refl r

theorem shiftRecvWindow_anatomy (s : MyTCPProtocol) (net : Net)
    (s' : MyTCPProtocol) (net' : Net)
    (h : MyTCPProtocol.shiftRecvWindow s net = .ok (s', net')) :
    s'.sent_bytes = s.sent_bytes ∧
    s'.confirmed_bytes = s.confirmed_bytes ∧
    s'.send_window = s.send_window ∧
    (∀ g ∈ s'.recv_window, g ∈ s.recv_window) ∧
    s.received_bytes ≤ s'.received_bytes ∧
    net'.incoming = net.incoming ∧
    (net'.sendCaps <:+ net.sendCaps) ∧
    net'.expiry = net.expiry := by
  simp only [MyTCPProtocol.shiftRecvWindow] at h
  split at h
  · rw [Except.ok.injEq, Prod.mk.injEq] at h
    obtain ⟨hs', hnet'⟩ := h
    subst hs' hnet'
    exact ⟨rfl, rfl, rfl, fun g hg => shiftRecvLoop_window_mem g _ _ _ hg,
      shiftRecvLoop_received_mono _ _ _, rfl, List.suffix_refl _, rfl⟩
  · split at h
    · rw [Except.ok.injEq, Prod.mk.injEq] at h
      obtain ⟨hs', hnet'⟩ := h
      subst hs' hnet'
      exact ⟨rfl, rfl, rfl, fun g hg => shiftRecvLoop_window_mem g _ _ _ hg,
        shiftRecvLoop_received_mono _ _ _, rfl, List.suffix_refl _, rfl⟩
    · split at h
      · exact absurd h (by simp)
      · rename_i heq
        rw [Except.ok.injEq, Prod.mk.injEq] at h
        obtain ⟨hs', hnet'⟩ := h
        subst hs' hnet'
        obtain ⟨hjs, hnet2, hconf, hrecd, -, hrw, -, -, hadv, -, hwe, -⟩ :=
          sendSegment_anatomy _ _ _ _ _ _ heq
        have hjs0 : _ ≤ 0 := hjs
        refine ⟨?_, by simpa using hconf, ?_, ?_, ?_, ?_, ?_, ?_⟩
        · have hadv' := hadv rfl
          dsimp only at hadv' hjs0
          omega
        · rw [hwe rfl]
        · intro g2 hg2
          rw [hrw] at hg2
          exact shiftRecvLoop_window_mem g2 _ _ _ (by simpa using hg2)
        · exact le_trans (shiftRecvLoop_received_mono _ _ _)
            (le_of_eq (by simpa using hrecd.symm))
        · rw [hnet2]
        · rw [hnet2]
          exact List.tail_suffix _
        · rw [hnet2]

/-- The ack field a received datagram contributes, as decoded by the receive
path (after the `recvfrom` size bound). -/
def ackOf (d : List Nat) : Nat :=
  (TCPSegment.load
    (d.take (max_segment_size + TCPSegment.service_len))).ack_number

theorem load_take_data_length (d : List Nat) :
    (TCPSegment.load
      (d.take (max_segment_size + TCPSegment.service_len))).data.length ≤
      max_segment_size := by
  simp only [TCPSegment.load, TCPSegment.service_len, max_segment_size,
    List.length_drop, List.length_take]
  omega

theorem receiveSegment_anatomy (s : MyTCPProtocol) (net : Net) (b : Bool)
    (s' : MyTCPProtocol) (net' : Net)
    (h : MyTCPProtocol.receiveSegment s net = .ok (b, s', net')) :
    s'.sent_bytes = s.sent_bytes ∧
    s.confirmed_bytes ≤ s'.confirmed_bytes ∧
    (∀ g ∈ s'.send_window, g ∈ s.send_window) ∧
    s.received_bytes ≤ s'.received_bytes ∧
    (net'.incoming <:+ net.incoming) ∧
    (net'.sendCaps <:+ net.sendCaps) ∧
    net'.expiry = net.expiry ∧
    (s'.confirmed_bytes = s.confirmed_bytes ∨
      ∃ d rest, net.incoming = some d :: rest ∧
        s'.confirmed_bytes = ackOf d) ∧
    (∀ g ∈ s'.recv_window, g ∈ s.recv_window ∨
      (g.data ≠ [] ∧ g.data.length ≤ max_segment_size)) := by
  simp only [MyTCPProtocol.receiveSegment] at h
  split at h
  · rw [Except.ok.injEq, Prod.mk.injEq, Prod.mk.injEq] at h
    obtain ⟨-, hs, hn⟩ := h
    subst hs hn
    exact ⟨rfl, le_refl _, fun g hg => hg, le_refl _, List.suffix_refl _,
      List.suffix_refl _, rfl, Or.inl rfl, fun g hg => Or.inl hg⟩
  · rename_i rest hin
    rw [Except.ok.injEq, Prod.mk.injEq, Prod.mk.injEq] at h
    obtain ⟨-, hs, hn⟩ := h
    subst hs hn
    refine ⟨rfl, le_refl _, fun g hg => hg, le_refl _, ?_,
      List.suffix_refl _, rfl, Or.inl rfl, fun g hg => Or.inl hg⟩
    dsimp only
    rw [hin]
    exact List.suffix_cons _ _
  · rename_i d rest hin
    split at h
    · exact absurd h (by simp)
    · rename_i s2 net2 heq
      split at heq
      · rename_i hd
        rw [Except.ok.injEq, Prod.mk.injEq] at heq
        obtain ⟨hs2, hn2⟩ := heq
        subst hs2 hn2
        split at h <;>
          (rw [Except.ok.injEq, Prod.mk.injEq, Prod.mk.injEq] at h
           obtain ⟨-, hs, hn⟩ := h
           subst hs hn)
        · rename_i hlt
          refine ⟨rfl, by dsimp only; omega, ?_, le_refl _, ?_,
            List.suffix_refl _, rfl, ?_, fun g hg => Or.inl hg⟩
          · intro g hg
            dsimp only at hg
            exact mem_shiftSendLoop g _ _ hg
          · dsimp only
            rw [hin]
            exact List.suffix_cons _ _
          · exact Or.inr ⟨d, rest, hin, rfl⟩
        · refine ⟨rfl, le_refl _, fun g hg => hg, le_refl _, ?_,
            List.suffix_refl _, rfl, Or.inl rfl, fun g hg => Or.inl hg⟩
          dsimp only
          rw [hin]
          exact List.suffix_cons _ _
      · rename_i hd
        obtain ⟨hsent2, hconf2, hsw2, hrw2, hrecd2, hinc2, hcaps2, hexp2⟩ :=
          shiftRecvWindow_anatomy _ _ _ _ heq
        dsimp only at hsent2 hconf2 hsw2 hrw2 hrecd2 hinc2 hcaps2 hexp2
        split at h <;>
          (rw [Except.ok.injEq, Prod.mk.injEq, Prod.mk.injEq] at h
           obtain ⟨-, hs, hn⟩ := h
           subst hs hn)
        · rename_i hlt
          refine ⟨by simpa using hsent2, by dsimp only; omega, ?_,
            by simpa using hrecd2, ?_, hcaps2, hexp2, ?_, ?_⟩
          · intro g hg
            dsimp only at hg
            have hmem := mem_shiftSendLoop g _ _ hg
            rw [hsw2] at hmem
            exact hmem
          · dsimp only
            rw [hinc2, hin]
            exact List.suffix_cons _ _
          · refine Or.inr ⟨d, rest, hin, ?_⟩
            dsimp only
            rfl
          · intro g hg
            dsimp only at hg
            rcases (mem_insertSorted g _ _).mp (hrw2 g hg) with hgs | hgold
            · subst hgs
              exact Or.inr ⟨hd, load_take_data_length d⟩
            · exact Or.inl hgold
        · rename_i hge
          refine ⟨hsent2, by omega, ?_, hrecd2, ?_, hcaps2, hexp2, ?_, ?_⟩
          · intro g hg
            rw [hsw2] at hg
            exact hg
          · rw [hinc2, hin]
            exact List.suffix_cons _ _
          · left
            omega
          · intro g hg
            rcases (mem_insertSorted g _ _).mp (hrw2 g hg) with hgs | hgold
            · subst hgs
              exact Or.inr ⟨hd, load_take_data_length d⟩
            · exact Or.inl hgold

/-! ## Invariant predicates -/

/-- The spec's invariant confirmed-bytes ≤ sent-bytes. -/
def ConfInv (s : MyTCPProtocol) : Prop :=
  s.confirmed_bytes ≤ s.sent_bytes

/-- Every incoming datagram in the oracle acknowledges at most `bound`
stream bytes.  An honest peer only acknowledges bytes it has received, so
its acks never exceed what this endpoint has sent. -/
def AcksBounded (net : Net) (bound : Nat) : Prop :=
  ∀ o ∈ net.incoming, ∀ d : List Nat, o = some d → ackOf d ≤ bound

/-- The spec's window bound sent-bytes − confirmed-bytes ≤ window-size +
max-segment-size. -/
def WinBound (s : MyTCPProtocol) : Prop :=
  s.sent_bytes - s.confirmed_bytes ≤ window_size + max_segment_size

/-- Structural fact about the send window: every parked segment either sits
strictly below `sent_bytes` or carries no payload.  It holds for the fresh
endpoint and is preserved by every operation; it is what makes
retransmissions unable to advance `sent_bytes`. -/
def SendWinOK (s : MyTCPProtocol) : Prop :=
  ∀ g ∈ s.send_window, g.seq_number < s.sent_bytes ∨ g.data = []

/-- Both windows hold only segments with non-empty payload of at most
`max_segment_size` bytes. -/
def WinInv (s : MyTCPProtocol) : Prop :=
  (∀ g ∈ s.send_window, g.data ≠ [] ∧ g.data.length ≤ max_segment_size) ∧
  (∀ g ∈ s.recv_window, g.data ≠ [] ∧ g.data.length ≤ max_segment_size)

/-- The datagram port transmits whole datagrams: every cap in the oracle is
at least one full segment (header plus maximal payload). -/
def FullSend (net : Net) : Prop :=
  ∀ c ∈ net.sendCaps, max_segment_size + TCPSegment.service_len ≤ c

theorem FullSend_suffix (net net' : Net)
    (hsuf : net'.sendCaps <:+ net.sendCaps) (hf : FullSend net) :
    FullSend net' :=
  fun c hc => hf c (hsuf.subset hc)

theorem AcksBounded_mono (net net' : Net) (a b : Nat)
    (hsuf : net'.incoming <:+ net.incoming) (hab : a ≤ b)
    (hf : AcksBounded net a) : AcksBounded net' b :=
  fun o ho d hd => le_trans (hf o (hsuf.subset ho) d hd) hab

/-! ## Preservation lemmas for the emit path -/

theorem sendSegment_preserves_sendWinOK (seg : TCPSegment)
    (s : MyTCPProtocol) (net : Net) (js : Nat) (s' : MyTCPProtocol)
    (net' : Net) (hok : SendWinOK s)
    (h : MyTCPProtocol.sendSegment seg s net = .ok (js, s', net')) :
    SendWinOK s' := by
  obtain ⟨hjs, -, -, -, -, -, -, hle, hadv, hkeep, hwe, hwn⟩ :=
    sendSegment_anatomy seg s net js s' net' h
  intro g hg
  by_cases hseq : seg.seq_number = s.sent_bytes
  · rw [hadv hseq]
    by_cases hdat : seg.data = []
    · rw [hwe hdat] at hg
      rcases hok g hg with hlt | hnil
      · exact Or.inl (by omega)
      · exact Or.inr hnil
    · rw [hwn hdat] at hg
      rcases (mem_insertSorted g _ _).mp hg with hgs | hgold
      · subst hgs
        by_cases hjs0 : js = 0
        · exact Or.inr (by simp [hjs0])
        · exact Or.inl (by dsimp only; omega)
      · rcases hok g hgold with hlt | hnil
        · exact Or.inl (by omega)
        · exact Or.inr hnil
  · rw [hkeep hseq]
    have hlt : seg.seq_number < s.sent_bytes := by omega
    by_cases hdat : seg.data = []
    · rw [hwe hdat] at hg
      exact hok g hg
    · rw [hwn hdat] at hg
      rcases (mem_insertSorted g _ _).mp hg with hgs | hgold
      · subst hgs
        exact Or.inl hlt
      · exact hok g hgold

theorem sendSegment_sent_of_sendWinOK_mem (g : TCPSegment)
    (s : MyTCPProtocol) (net : Net) (js : Nat) (s' : MyTCPProtocol)
    (net' : Net) (hg : g.seq_number < s.sent_bytes ∨ g.data = [])
    (h : MyTCPProtocol.sendSegment g s net = .ok (js, s', net')) :
    s'.sent_bytes = s.sent_bytes := by
  obtain ⟨hjs, -, -, -, -, -, -, -, hadv, hkeep, -, -⟩ :=
    sendSegment_anatomy g s net js s' net' h
  rcases hg with hlt | hnil
  · exact hkeep (by omega)
  · by_cases hseq : g.seq_number = s.sent_bytes
    · have ha := hadv hseq
      rw [hnil] at hjs
      simp only [List.length_nil, Nat.le_zero] at hjs
      omega
    · exact hkeep hseq

theorem sendSegment_fullSend_js (seg : TCPSegment) (s : MyTCPProtocol)
    (net : Net) (js : Nat) (s' : MyTCPProtocol) (net' : Net)
    (hfull : FullSend net) (hlen : seg.data.length ≤ max_segment_size)
    (h : MyTCPProtocol.sendSegment seg s net = .ok (js, s', net')) :
    js = seg.data.length := by
  have hjsf := sendSegment_js seg s net js s' net' h
  have hdl := seg.dump_length
  cases hcaps : net.sendCaps with
  | nil =>
    rw [hcaps] at hjsf
    simp only [List.headD_nil, TCPSegment.service_len] at hjsf
    omega
  | cons c cs =>
    have hc := hfull c (by rw [hcaps]; exact List.mem_cons_self c cs)
    rw [hcaps] at hjsf
    simp only [List.headD_cons, TCPSegment.service_len] at hjsf
    simp only [max_segment_size, TCPSegment.service_len] at hc hlen
    omega

theorem sendSegment_preserves_winInv (seg : TCPSegment) (s : MyTCPProtocol)
    (net : Net) (js : Nat) (s' : MyTCPProtocol) (net' : Net)
    (hfull : FullSend net) (hlen : seg.data.length ≤ max_segment_size)
    (hwi : WinInv s)
    (h : MyTCPProtocol.sendSegment seg s net = .ok (js, s', net')) :
    WinInv s' ∧ FullSend net' := by
  obtain ⟨hjs, hnet, -, -, -, hrw, -, -, -, -, hwe, hwn⟩ :=
    sendSegment_anatomy seg s net js s' net' h
  have hfull' : FullSend net' := by
    refine FullSend_suffix net net' ?_ hfull
    rw [hnet]
    exact List.tail_suffix _
  refine ⟨⟨?_, ?_⟩, hfull'⟩
  · intro g hg
    by_cases hdat : seg.data = []
    · rw [hwe hdat] at hg
      exact hwi.1 g hg
    · rw [hwn hdat] at hg
      rcases (mem_insertSorted g _ _).mp hg with hgs | hgold
      · subst hgs
        have hjs' : js = seg.data.length :=
          sendSegment_fullSend_js seg s net js s' net' hfull hlen h
        refine ⟨?_, ?_⟩
        · dsimp only
          rw [hjs', List.take_of_length_le (le_refl _)]
          exact hdat
        · dsimp only
          rw [hjs', List.take_of_length_le (le_refl _)]
          exact hlen
      · exact hwi.1 g hgold
  · intro g hg
    rw [hrw] at hg
    exact hwi.2 g hg

/-! ## Preservation lemmas for the retransmit driver -/

theorem resendEarliest_frame (force : Bool) (s : MyTCPProtocol) (net : Net)
    (s' : MyTCPProtocol) (net' : Net)
    (h : MyTCPProtocol.resendEarliest force s net = .ok (s', net')) :
    s'.confirmed_bytes = s.confirmed_bytes ∧
    s'.received_bytes = s.received_bytes ∧
    s'.recv_window = s.recv_window ∧
    s'.buffer = s.buffer ∧
    s.sent_bytes ≤ s'.sent_bytes ∧
    net'.incoming = net.incoming ∧
    (net'.sendCaps <:+ net.sendCaps) := by
  simp only [MyTCPProtocol.resendEarliest] at h
  split at h
  · rw [Except.ok.injEq, Prod.mk.injEq] at h
    obtain ⟨hs, hn⟩ := h
    subst hs hn
    exact ⟨rfl, rfl, rfl, rfl, le_refl _, rfl, List.suffix_refl _⟩
  · rename_i g rest hswin
    split at h
    · split at h
      · exact absurd h (by simp)
      · rename_i heq
        rw [Except.ok.injEq, Prod.mk.injEq] at h
        obtain ⟨hs, hn⟩ := h
        subst hs hn
        obtain ⟨-, hnet, hconf, hrecd, hbuf, hrw, -, -, hadv, hkeep, -, -⟩ :=
          sendSegment_anatomy _ _ _ _ _ _ heq
        dsimp only at hnet hconf hrecd hbuf hrw
        refine ⟨hconf, hrecd, hrw, hbuf, ?_, ?_, ?_⟩
        · by_cases hseq : g.seq_number = s.sent_bytes
          · have := hadv hseq
            dsimp only at this
            omega
          · have := hkeep hseq
            dsimp only at this
            omega
        · rw [hnet]
        · rw [hnet]
          exact List.tail_suffix _
    · rw [Except.ok.injEq, Prod.mk.injEq] at h
      obtain ⟨hs, hn⟩ := h
      subst hs hn
      exact ⟨rfl, rfl, rfl, rfl, le_refl _, rfl, List.suffix_refl _⟩

theorem resendEarliest_sendWinOK (force : Bool) (s : MyTCPProtocol)
    (net : Net) (s' : MyTCPProtocol) (net' : Net) (hok : SendWinOK s)
    (h : MyTCPProtocol.resendEarliest force s net = .ok (s', net')) :
    SendWinOK s' ∧ s'.sent_bytes = s.sent_bytes := by
  simp only [MyTCPProtocol.resendEarliest] at h
  split at h
  · rw [Except.ok.injEq, Prod.mk.injEq] at h
    obtain ⟨hs, hn⟩ := h
    subst hs hn
    exact ⟨hok, rfl⟩
  · rename_i g rest hswin
    have hgmem : g ∈ s.send_window := by
      rw [hswin]; exact List.mem_cons_self g rest
    split at h
    · split at h
      · exact absurd h (by simp)
      · rename_i heq
        rw [Except.ok.injEq, Prod.mk.injEq] at h
        obtain ⟨hs, hn⟩ := h
        subst hs hn
        have hrest : SendWinOK { s with send_window := rest } := by
          intro g2 hg2
          exact hok g2 (by rw [hswin]; exact List.mem_cons_of_mem g hg2)
        have hcond : g.seq_number <
            ({ s with send_window := rest } : MyTCPProtocol).sent_bytes ∨
            g.data = [] := hok g hgmem
        refine ⟨?_, ?_⟩
        · have := sendSegment_preserves_sendWinOK g
            { s with send_window := rest }
            { net with expiry := net.expiry.tail } _ _ _ hrest heq
          intro g2 hg2
          exact this g2 hg2
        · exact sendSegment_sent_of_sendWinOK_mem g
            { s with send_window := rest }
            { net with expiry := net.expiry.tail } _ _ _ hcond heq
    · rw [Except.ok.injEq, Prod.mk.injEq] at h
      obtain ⟨hs, hn⟩ := h
      subst hs hn
      refine ⟨?_, rfl⟩
      intro g2 hg2
      dsimp only at hg2 ⊢
      rcases (mem_insertSorted g2 _ _).mp hg2 with hgs | hgold
      · subst hgs
        exact hok g2 hgmem
      · exact hok g2 (by rw [hswin]; exact List.mem_cons_of_mem g hgold)

theorem resendEarliest_winInv (force : Bool) (s : MyTCPProtocol) (net : Net)
    (s' : MyTCPProtocol) (net' : Net) (hfull : FullSend net)
    (hwi : WinInv s)
    (h : MyTCPProtocol.resendEarliest force s net = .ok (s', net')) :
    WinInv s' ∧ FullSend net' := by
  simp only [MyTCPProtocol.resendEarliest] at h
  split at h
  · rw [Except.ok.injEq, Prod.mk.injEq] at h
    obtain ⟨hs, hn⟩ := h
    subst hs hn
    exact ⟨hwi, hfull⟩
  · rename_i g rest hswin
    have hgmem : g ∈ s.send_window := by
      rw [hswin]; exact List.mem_cons_self g rest
    split at h
    · split at h
      · exact absurd h (by simp)
      · rename_i heq
        rw [Except.ok.injEq, Prod.mk.injEq] at h
        obtain ⟨hs, hn⟩ := h
        subst hs hn
        have hrest : WinInv { s with send_window := rest } := by
          refine ⟨?_, hwi.2⟩
          intro g2 hg2
          exact hwi.1 g2 (by rw [hswin]; exact List.mem_cons_of_mem g hg2)
        exact sendSegment_preserves_winInv g
          { s with send_window := rest }
          { net with expiry := net.expiry.tail } _ _ _
          (fun c hc => hfull c hc) (hwi.1 g hgmem).2 hrest heq
    · rw [Except.ok.injEq, Prod.mk.injEq] at h
      obtain ⟨hs, hn⟩ := h
      subst hs hn
      refine ⟨⟨?_, hwi.2⟩, fun c hc => hfull c hc⟩
      intro g2 hg2
      dsimp only at hg2
      rcases (mem_insertSorted g2 _ _).mp hg2 with hgs | hgold
      · subst hgs
        exact hwi.1 g2 hgmem
      · exact hwi.1 g2 (by rw [hswin]; exact List.mem_cons_of_mem g hgold)

/-! ## Preservation lemmas for the receive path -/

theorem receiveSegment_confInv (s : MyTCPProtocol) (net : Net) (b : Bool)
    (s' : MyTCPProtocol) (net' : Net) (hci : ConfInv s)
    (hab : AcksBounded net s.sent_bytes)
    (h : MyTCPProtocol.receiveSegment s net = .ok (b, s', net')) :
    ConfInv s' ∧ AcksBounded net' s'.sent_bytes := by
  obtain ⟨hsent, hconf, -, -, hinc, -, -, hdisj, -⟩ :=
    receiveSegment_anatomy s net b s' net' h
  constructor
  · rcases hdisj with heq | ⟨d, rest, hd, hacks⟩
    · unfold ConfInv at *
      omega
    · have := hab (some d) (by rw [hd]; exact List.mem_cons_self _ _) d rfl
      unfold ConfInv
      omega
  · exact AcksBounded_mono net net' s.sent_bytes s'.sent_bytes hinc
      (le_of_eq hsent.symm) hab

theorem receiveSegment_sendWinOK (s : MyTCPProtocol) (net : Net) (b : Bool)
    (s' : MyTCPProtocol) (net' : Net) (hok : SendWinOK s)
    (h : MyTCPProtocol.receiveSegment s net = .ok (b, s', net')) :
    SendWinOK s' ∧ s'.sent_bytes = s.sent_bytes := by
  obtain ⟨hsent, -, hsw, -, -, -, -, -, -⟩ :=
    receiveSegment_anatomy s net b s' net' h
  refine ⟨?_, hsent⟩
  intro g hg
  rcases hok g (hsw g hg) with hlt | hnil
  · exact Or.inl (by omega)
  · exact Or.inr hnil

theorem receiveSegment_winBound (s : MyTCPProtocol) (net : Net) (b : Bool)
    (s' : MyTCPProtocol) (net' : Net) (hwb : WinBound s)
    (h : MyTCPProtocol.receiveSegment s net = .ok (b, s', net')) :
    WinBound s' := by
  obtain ⟨hsent, hconf, -, -, -, -, -, -, -⟩ :=
    receiveSegment_anatomy s net b s' net' h
  unfold WinBound at *
  omega

theorem receiveSegment_winInv (s : MyTCPProtocol) (net : Net) (b : Bool)
    (s' : MyTCPProtocol) (net' : Net) (hfull : FullSend net) (hwi : WinInv s)
    (h : MyTCPProtocol.receiveSegment s net = .ok (b, s', net')) :
    WinInv s' ∧ FullSend net' := by
  obtain ⟨-, -, hsw, -, -, hcaps, -, -, hrw⟩ :=
    receiveSegment_anatomy s net b s' net' h
  refine ⟨⟨?_, ?_⟩, FullSend_suffix net net' hcaps hfull⟩
  · intro g hg
    exact hwi.1 g (hsw g hg)
  · intro g hg
    rcases hrw g hg with hold | hnew
    · exact hwi.2 g hold
    · exact hnew

/-! ## Generic loop invariance -/

theorem recvLoop_inv (I : MyTCPProtocol → Net → Prop)
    (hstep : ∀ s net b s' net', I s net →
      MyTCPProtocol.receiveSegment s net = .ok (b, s', net') → I s' net')
    (hbuf : ∀ s net bl, I s net → I { s with buffer := bl } net) :
    ∀ (fuel n : Nat) (data : List Nat) (s : MyTCPProtocol) (net : Net)
      (bs : List Nat) (s' : MyTCPProtocol) (net' : Net), I s net →
      MyTCPProtocol.recvLoop fuel n data s net = .ok (some (bs, s', net')) →
      I s' net' := by
  intro fuel
  induction fuel with
  | zero =>
    intro n data s net bs s' net' hI h
    simp only [MyTCPProtocol.recvLoop] at h
    split at h
    · exact absurd h (by simp)
    · rw [Except.ok.injEq, Option.some.injEq, Prod.mk.injEq,
        Prod.mk.injEq] at h
      obtain ⟨-, hs, hn⟩ := h
      subst hs hn
      exact hI
  | succ fuel ih =>
    intro n data s net bs s' net' hI h
    simp only [MyTCPProtocol.recvLoop] at h
    split at h
    · split at h
      · exact absurd h (by simp)
      · rename_i b1 s1 net1 heq
        exact ih n _ _ _ bs s' net'
          (hbuf s1 net1 _ (hstep s net b1 s1 net1 hI heq)) h
    · rw [Except.ok.injEq, Option.some.injEq, Prod.mk.injEq,
        Prod.mk.injEq] at h
      obtain ⟨-, hs, hn⟩ := h
      subst hs hn
      exact hI

theorem sendLoop_inv (I : MyTCPProtocol → Net → Prop)
    (hemit : ∀ (s : MyTCPProtocol) (net : Net) (data : List Nat)
      (js : Nat) (s' : MyTCPProtocol) (net' : Net),
      I s net → data ≠ [] →
      s.sent_bytes - s.confirmed_bytes ≤ window_size →
      MyTCPProtocol.sendSegment ⟨s.sent_bytes, s.received_bytes,
        data.take (min max_segment_size data.length), false⟩ s net =
        .ok (js, s', net') → I s' net')
    (hrecv : ∀ s net b s' net', I s net →
      MyTCPProtocol.receiveSegment s net = .ok (b, s', net') → I s' net')
    (hres : ∀ s net s' net', I s net →
      MyTCPProtocol.resendEarliest false s net = .ok (s', net') →
      I s' net') :
    ∀ (fuel : Nat) (data : List Nat) (sdl att : Nat) (s : MyTCPProtocol)
      (net : Net) (d' : List Nat) (sdl' att' : Nat) (s' : MyTCPProtocol)
      (net' : Net), I s net →
      MyTCPProtocol.sendLoop fuel data sdl att s net =
        .ok (some (d', sdl', att', s', net')) →
      I s' net' := by
  intro fuel
  induction fuel with
  | zero =>
    intro data sdl att s net d' sdl' att' s' net' hI h
    simp only [MyTCPProtocol.sendLoop] at h
    split at h
    · exact absurd h (by simp)
    · rw [Except.ok.injEq, Option.some.injEq, Prod.mk.injEq, Prod.mk.injEq,
        Prod.mk.injEq, Prod.mk.injEq] at h
      obtain ⟨-, -, -, hs, hn⟩ := h
      subst hs hn
      exact hI
  | succ fuel ih =>
    intro data sdl att s net d' sdl' att' s' net' hI h
    simp only [MyTCPProtocol.sendLoop] at h
    split at h
    · rename_i hcond
      split at h
      · rename_i hguard
        split at h
        · exact absurd h (by simp)
        · rename_i js s1 net1 heq1
          split at h
          · exact absurd h (by simp)
          · rename_i b s2 net2 heq2
            split at h
            · exact absurd h (by simp)
            · rename_i s3 net3 heq3
              exact ih _ _ _ _ _ _ _ _ _ _
                (hres s2 net2 s3 net3
                  (hrecv s1 net1 b s2 net2
                    (hemit s net data js s1 net1 hI hguard.2 hguard.1 heq1)
                    heq2)
                  heq3) h
      · split at h
        · exact absurd h (by simp)
        · rename_i b s1 net1 heq1
          split at h
          · exact absurd h (by simp)
          · rename_i s2 net2 heq2
            exact ih _ _ _ _ _ _ _ _ _ _
              (hres s1 net1 s2 net2 (hrecv s net b s1 net1 hI heq1) heq2) h
    · rw [Except.ok.injEq, Option.some.injEq, Prod.mk.injEq, Prod.mk.injEq,
        Prod.mk.injEq, Prod.mk.injEq] at h
      obtain ⟨-, -, -, hs, hn⟩ := h
      subst hs hn
      exact hI

theorem send_eq_sendLoop (fuel : Nat) (data : List Nat) (s : MyTCPProtocol)
    (net : Net) (n : Nat) (s' : MyTCPProtocol) (net' : Net)
    (h : MyTCPProtocol.send fuel data s net = .ok (some (n, s', net'))) :
    ∃ d' att', MyTCPProtocol.sendLoop fuel data 0 0 s net =
      .ok (some (d', n, att', s', net')) := by
  simp only [MyTCPProtocol.send] at h
  split at h
  · exact absurd h (by simp)
  · exact absurd h (by simp)
  · rename_i d1 sdl1 att1 s1 net1 heq
    rw [Except.ok.injEq, Option.some.injEq, Prod.mk.injEq, Prod.mk.injEq] at h
    obtain ⟨hsdl, hs, hn⟩ := h
    subst hsdl hs hn
    exact ⟨d1, att1, heq⟩

/-! ## Claim C4 (amended) -/

/-- C4 (amended): the invariant confirmed-bytes ≤ sent-bytes is preserved by
every operation — the segment-level helpers, `send` and `recv` — provided
every incoming datagram acknowledges at most the endpoint's sent-bytes
counter (an honest peer never acks bytes it was not sent).  Without that
proviso the claim is false (see the rogue-ack counterexample): line 128
records any larger ack verbatim. -/
theorem C4_confirmed_le_sent_preserved :
    (∀ seg s net js s' net', ConfInv s →
      MyTCPProtocol.sendSegment seg s net = .ok (js, s', net') →
      ConfInv s') ∧
    (∀ s net b s' net', ConfInv s → AcksBounded net s.sent_bytes →
      MyTCPProtocol.receiveSegment s net = .ok (b, s', net') →
      ConfInv s' ∧ AcksBounded net' s'.sent_bytes) ∧
    (∀ s net s' net', ConfInv s →
      MyTCPProtocol.shiftRecvWindow s net = .ok (s', net') → ConfInv s') ∧
    (∀ force s net s' net', ConfInv s →
      MyTCPProtocol.resendEarliest force s net = .ok (s', net') →
      ConfInv s') ∧
    (∀ fuel data s net n s' net', ConfInv s →
      AcksBounded net s.sent_bytes →
      MyTCPProtocol.send fuel data s net = .ok (some (n, s', net')) →
      ConfInv s') ∧
    (∀ fuel n s net bs s' net', ConfInv s → AcksBounded net s.sent_bytes →
      MyTCPProtocol.recv fuel n s net = .ok (some (bs, s', net')) →
      ConfInv s') := by
  have hsendSeg : ∀ seg s net js s' net',
      MyTCPProtocol.sendSegment seg s net = .ok (js, s', net') →
      s'.confirmed_bytes = s.confirmed_bytes ∧
      s.sent_bytes ≤ s'.sent_bytes ∧ net'.incoming = net.incoming := by
    intro seg s net js s' net' h
    obtain ⟨-, hnet, hconf, -, -, -, -, -, hadv, hkeep, -, -⟩ :=
      sendSegment_anatomy seg s net js s' net' h
    refine ⟨hconf, ?_, by rw [hnet]⟩
    by_cases hseq : seg.seq_number = s.sent_bytes
    · have := hadv hseq; omega
    · have := hkeep hseq; omega
  have hIstep : ∀ s net b s' net',
      (ConfInv s ∧ AcksBounded net s.sent_bytes) →
      MyTCPProtocol.receiveSegment s net = .ok (b, s', net') →
      ConfInv s' ∧ AcksBounded net' s'.sent_bytes := by
    intro s net b s' net' hI h
    exact receiveSegment_confInv s net b s' net' hI.1 hI.2 h
  have hIemit : ∀ (s : MyTCPProtocol) (net : Net) (data : List Nat)
      (js : Nat) (s' : MyTCPProtocol) (net' : Net),
      (ConfInv s ∧ AcksBounded net s.sent_bytes) → data ≠ [] →
      s.sent_bytes - s.confirmed_bytes ≤ window_size →
      MyTCPProtocol.sendSegment ⟨s.sent_bytes, s.received_bytes,
        data.take (min max_segment_size data.length), false⟩ s net =
        .ok (js, s', net') →
      ConfInv s' ∧ AcksBounded net' s'.sent_bytes := by
    intro s net data js s' net' hI hd hw h
    obtain ⟨hconf, hsent, hinc⟩ := hsendSeg _ _ _ _ _ _ h
    refine ⟨?_, ?_⟩
    · unfold ConfInv at *; omega
    · exact AcksBounded_mono net net' s.sent_bytes s'.sent_bytes
        (by rw [hinc]) hsent hI.2
  have hIres : ∀ s net s' net',
      (ConfInv s ∧ AcksBounded net s.sent_bytes) →
      MyTCPProtocol.resendEarliest false s net = .ok (s', net') →
      ConfInv s' ∧ AcksBounded net' s'.sent_bytes := by
    intro s net s' net' hI h
    obtain ⟨hconf, -, -, -, hsent, hinc, -⟩ :=
      resendEarliest_frame false s net s' net' h
    refine ⟨by unfold ConfInv at *; omega, ?_⟩
    exact AcksBounded_mono net net' s.sent_bytes s'.sent_bytes
      (by rw [hinc]) hsent hI.2
  refine ⟨?_, ?_, ?_, ?_, ?_, ?_⟩
  · intro seg s net js s' net' hci h
    obtain ⟨hconf, hsent, -⟩ := hsendSeg seg s net js s' net' h
    unfold ConfInv at *
    omega
  · intro s net b s' net' hci hab h
    exact receiveSegment_confInv s net b s' net' hci hab h
  · intro s net s' net' hci h
    obtain ⟨hsent, hconf, -, -, -, -, -, -⟩ :=
      shiftRecvWindow_anatomy s net s' net' h
    unfold ConfInv at *
    omega
  · intro force s net s' net' hci h
    obtain ⟨hconf, -, -, -, hsent, -, -⟩ :=
      resendEarliest_frame force s net s' net' h
    unfold ConfInv at *
    omega
  · intro fuel data s net n s' net' hci hab h
    obtain ⟨d', att', hloop⟩ := send_eq_sendLoop fuel data s net n s' net' h
    exact (sendLoop_inv
      (fun s net => ConfInv s ∧ AcksBounded net s.sent_bytes)
      (fun s net data js s' net' hI hd hw heq => hIemit s net data js s' net' hI hd hw heq)
      hIstep hIres fuel data 0 0 s net d' n att' s' net' ⟨hci, hab⟩ hloop).1
  · intro fuel n s net bs s' net' hci hab h
    have hbuf : ∀ (s : MyTCPProtocol) (net : Net) (bl : List Nat),
        (ConfInv s ∧ AcksBounded net s.sent_bytes) →
        (ConfInv { s with buffer := bl } ∧
          AcksBounded net ({ s with buffer := bl } : MyTCPProtocol).sent_bytes) := by
      intro s net bl hI
      exact hI
    exact (recvLoop_inv
      (fun s net => ConfInv s ∧ AcksBounded net s.sent_bytes)
      hIstep hbuf fuel n _ _ net bs s' net' (hbuf s net _ ⟨hci, hab⟩) h).1

/-- Witness for C4 (amended): the receive-path conjunct at a fresh endpoint
with an empty oracle. -/
theorem C4_confirmed_le_sent_preserved_witness :
    ConfInv initEndpoint ∧
      AcksBounded (⟨[], [], []⟩ : Net) initEndpoint.sent_bytes :=
  C4_confirmed_le_sent_preserved.2.1 initEndpoint ⟨[], [], []⟩ false
    initEndpoint ⟨[], [], []⟩ (by unfold ConfInv initEndpoint; dsimp only; omega)
    (by intro o ho d hd; exact absurd ho (by simp)) rfl

/-! ## Claim C5: the window bound -/

/-- C5: at every observation point of every `send` execution, sent-bytes −
confirmed-bytes ≤ window-size + max-segment-size.  The conjuncts cover every
state an execution of `send` passes through: the emit step (performed only
under the window lock check sent − confirmed ≤ window-size and adding at
most one `max_segment_size` payload), the ACK poll, the retransmit step
(which never advances sent-bytes thanks to `SendWinOK`), each whole loop
iteration by composition, and the final state of the call.  `SendWinOK`
holds for the fresh endpoint and is carried along as part of the
invariant. -/
theorem C5_window_bound :
    (∀ (s : MyTCPProtocol) (net : Net) (data : List Nat) (js : Nat)
      (s' : MyTCPProtocol) (net' : Net),
      WinBound s ∧ SendWinOK s → data ≠ [] →
      s.sent_bytes - s.confirmed_bytes ≤ window_size →
      MyTCPProtocol.sendSegment ⟨s.sent_bytes, s.received_bytes,
        data.take (min max_segment_size data.length), false⟩ s net =
        .ok (js, s', net') →
      WinBound s' ∧ SendWinOK s') ∧
    (∀ s net b s' net', WinBound s ∧ SendWinOK s →
      MyTCPProtocol.receiveSegment s net = .ok (b, s', net') →
      WinBound s' ∧ SendWinOK s') ∧
    (∀ force s net s' net', WinBound s ∧ SendWinOK s →
      MyTCPProtocol.resendEarliest force s net = .ok (s', net') →
      WinBound s' ∧ SendWinOK s') ∧
    (∀ fuel data sdl att s net d' sdl' att' s' net',
      WinBound s ∧ SendWinOK s →
      MyTCPProtocol.sendLoop fuel data sdl att s net =
        .ok (some (d', sdl', att', s', net')) →
      WinBound s' ∧ SendWinOK s') ∧
    (∀ fuel data s net n s' net', WinBound s ∧ SendWinOK s →
      MyTCPProtocol.send fuel data s net = .ok (some (n, s', net')) →
      WinBound s') := by
  have hemit : ∀ (s : MyTCPProtocol) (net : Net) (data : List Nat)
      (js : Nat) (s' : MyTCPProtocol) (net' : Net),
      WinBound s ∧ SendWinOK s → data ≠ [] →
      s.sent_bytes - s.confirmed_bytes ≤ window_size →
      MyTCPProtocol.sendSegment ⟨s.sent_bytes, s.received_bytes,
        data.take (min max_segment_size data.length), false⟩ s net =
        .ok (js, s', net') →
      WinBound s' ∧ SendWinOK s' := by
    intro s net data js s' net' hI hd hw h
    obtain ⟨hjs, -, hconf, -, -, -, -, -, hadv, -, -, -⟩ :=
      sendSegment_anatomy _ s net js s' net' h
    have hsent' := hadv rfl
    dsimp only at hsent' hjs
    rw [List.length_take] at hjs
    refine ⟨?_, sendSegment_preserves_sendWinOK _ s net js s' net' hI.2 h⟩
    unfold WinBound at *
    omega
  have hrecv : ∀ s net b s' net', WinBound s ∧ SendWinOK s →
      MyTCPProtocol.receiveSegment s net = .ok (b, s', net') →
      WinBound s' ∧ SendWinOK s' := by
    intro s net b s' net' hI h
    exact ⟨receiveSegment_winBound s net b s' net' hI.1 h,
      (receiveSegment_sendWinOK s net b s' net' hI.2 h).1⟩
  have hres : ∀ force s net s' net', WinBound s ∧ SendWinOK s →
      MyTCPProtocol.resendEarliest force s net = .ok (s', net') →
      WinBound s' ∧ SendWinOK s' := by
    intro force s net s' net' hI h
    obtain ⟨hok', hsent⟩ :=
      resendEarliest_sendWinOK force s net s' net' hI.2 h
    obtain ⟨hconf, -, -, -, -, -, -⟩ := resendEarliest_frame force s net s' net' h
    refine ⟨?_, hok'⟩
    unfold WinBound at *
    omega
  have hloop : ∀ fuel data sdl att s net d' sdl' att' s' net',
      WinBound s ∧ SendWinOK s →
      MyTCPProtocol.sendLoop fuel data sdl att s net =
        .ok (some (d', sdl', att', s', net')) →
      WinBound s' ∧ SendWinOK s' := by
    intro fuel data sdl att s net d' sdl' att' s' net' hI h
    exact sendLoop_inv (fun s _ => WinBound s ∧ SendWinOK s)
      (fun s net data js s' net' hI hd hw heq =>
        hemit s net data js s' net' hI hd hw heq)
      (fun s net b s' net' hI heq => hrecv s net b s' net' hI heq)
      (fun s net s' net' hI heq => hres false s net s' net' hI heq)
      fuel data sdl att s net d' sdl' att' s' net' hI h
  refine ⟨hemit, hrecv, hres, hloop, ?_⟩
  intro fuel data s net n s' net' hI h
  obtain ⟨d', att', hloopEq⟩ := send_eq_sendLoop fuel data s net n s' net' h
  exact (hloop fuel data 0 0 s net d' n att' s' net' hI hloopEq).1

/-- Witness for C5: the final conjunct applied to a fresh endpoint, empty
payload and empty oracle (`send` returns immediately with count 0). -/
theorem C5_window_bound_witness : WinBound initEndpoint :=
  C5_window_bound.2.2.2.2 1 [] initEndpoint ⟨[], [], []⟩ 0 initEndpoint
    ⟨[], [], []⟩
    ⟨by unfold WinBound initEndpoint; dsimp only; omega,
     by intro g hg; exact absurd hg (by simp [initEndpoint])⟩ rfl

/-! ## Claim C10 (amended) -/

/-- C10 (amended): when the datagram port transmits whole datagrams
(`FullSend`), every segment buffered in either window has a non-empty
payload of at most `max_segment_size` bytes, and this invariant is preserved
by `_receive_segment`, `_send_segment` (for payloads within the segment size
bound), the retransmit driver, `send` and `recv`.  The original claim's
"(possibly truncated)" reading is false in general because line 146 tests
the payload before truncation: a partial send can park an empty-payload
segment (see the counterexample). -/
theorem C10_windows_nonempty_invariant :
    (∀ s net b s' net', WinInv s ∧ FullSend net →
      MyTCPProtocol.receiveSegment s net = .ok (b, s', net') →
      WinInv s' ∧ FullSend net') ∧
    (∀ seg s net js s' net', WinInv s ∧ FullSend net →
      seg.data.length ≤ max_segment_size →
      MyTCPProtocol.sendSegment seg s net = .ok (js, s', net') →
      WinInv s' ∧ FullSend net') ∧
    (∀ force s net s' net', WinInv s ∧ FullSend net →
      MyTCPProtocol.resendEarliest force s net = .ok (s', net') →
      WinInv s' ∧ FullSend net') ∧
    (∀ fuel data s net n s' net', WinInv s ∧ FullSend net →
      MyTCPProtocol.send fuel data s net = .ok (some (n, s', net')) →
      WinInv s') ∧
    (∀ fuel n s net bs s' net', WinInv s ∧ FullSend net →
      MyTCPProtocol.recv fuel n s net = .ok (some (bs, s', net')) →
      WinInv s') := by
  have hrecv : ∀ s net b s' net', WinInv s ∧ FullSend net →
      MyTCPProtocol.receiveSegment s net = .ok (b, s', net') →
      WinInv s' ∧ FullSend net' := by
    intro s net b s' net' hI h
    exact receiveSegment_winInv s net b s' net' hI.2 hI.1 h
  have hres : ∀ force s net s' net', WinInv s ∧ FullSend net →
      MyTCPProtocol.resendEarliest force s net = .ok (s', net') →
      WinInv s' ∧ FullSend net' := by
    intro force s net s' net' hI h
    exact resendEarliest_winInv force s net s' net' hI.2 hI.1 h
  have hemit : ∀ (s : MyTCPProtocol) (net : Net) (data : List Nat)
      (js : Nat) (s' : MyTCPProtocol) (net' : Net),
      WinInv s ∧ FullSend net → data ≠ [] →
      s.sent_bytes - s.confirmed_bytes ≤ window_size →
      MyTCPProtocol.sendSegment ⟨s.sent_bytes, s.received_bytes,
        data.take (min max_segment_size data.length), false⟩ s net =
        .ok (js, s', net') →
      WinInv s' ∧ FullSend net' := by
    intro s net data js s' net' hI hd hw h
    refine sendSegment_preserves_winInv _ s net js s' net' hI.2 ?_ hI.1 h
    dsimp only
    rw [List.length_take]
    omega
  refine ⟨hrecv, ?_, hres, ?_, ?_⟩
  · intro seg s net js s' net' hI hlen h
    exact sendSegment_preserves_winInv seg s net js s' net' hI.2 hlen hI.1 h
  · intro fuel data s net n s' net' hI h
    obtain ⟨d', att', hloopEq⟩ := send_eq_sendLoop fuel data s net n s' net' h
    exact (sendLoop_inv (fun s net => WinInv s ∧ FullSend net)
      (fun s net data js s' net' hI hd hw heq =>
        hemit s net data js s' net' hI hd hw heq)
      hrecv (fun s net s' net' hI heq => hres false s net s' net' hI heq)
      fuel data 0 0 s net d' n att' s' net' hI hloopEq).1
  · intro fuel n s net bs s' net' hI h
    have hbuf : ∀ (s : MyTCPProtocol) (net : Net) (bl : List Nat),
        (WinInv s ∧ FullSend net) →
        (WinInv { s with buffer := bl } ∧ FullSend net) := by
      intro s net bl hI
      exact ⟨⟨fun g hg => hI.1.1 g hg, fun g hg => hI.1.2 g hg⟩, hI.2⟩
    exact (recvLoop_inv (fun s net => WinInv s ∧ FullSend net)
      hrecv hbuf fuel n _ _ net bs s' net' (hbuf s net _ hI) h).1

/-- Witness for C10 (amended): emitting a 1-byte segment from a fresh
endpoint under full port sends parks exactly that non-empty segment. -/
theorem C10_windows_nonempty_invariant_witness :
    WinInv ⟨1, 0, 0, [⟨0, 0, [1], false⟩], [], [], 1⟩ ∧
      FullSend ⟨[], [], []⟩ :=
  C10_windows_nonempty_invariant.2.1 ⟨0, 0, [1], false⟩ initEndpoint
    ⟨[], [], []⟩ 1 ⟨1, 0, 0, [⟨0, 0, [1], false⟩], [], [], 1⟩ ⟨[], [], []⟩
    ⟨⟨by intro g hg; exact absurd hg (by simp [initEndpoint]),
       by intro g hg; exact absurd hg (by simp [initEndpoint])⟩,
     by intro c hc; exact absurd hc (by simp)⟩
    (by simp [max_segment_size]) rfl

/-! ## Claim C3 (amended): send-loop exit condition and returned count -/

/-- C3 (amended): a `send` call returns only when either (a) all payload has
been consumed and confirmed-bytes has caught up with sent-bytes, or (b) the
retry counter reaches the 20-attempt cap; and the returned count equals the
growth of `sent_bytes` during the call — the number of new payload bytes
accepted by the datagram port.  Retransmitted bytes are handed to the port
again but not counted (see the counterexample), so "payload bytes handed to
the port" overstates the return value whenever a retransmission occurs. -/
theorem C3_send_exit_and_count :
    (∀ fuel (data : List Nat) sdl att (s : MyTCPProtocol) (net : Net)
      (d' : List Nat) sdl' att' (s' : MyTCPProtocol) (net' : Net),
      SendWinOK s → att ≤ ack_crit_attempts →
      MyTCPProtocol.sendLoop fuel data sdl att s net =
        .ok (some (d', sdl', att', s', net')) →
      ((d' = [] ∧ s'.sent_bytes ≤ s'.confirmed_bytes) ∨
        att' = ack_crit_attempts) ∧
      sdl' = sdl + (s'.sent_bytes - s.sent_bytes) ∧
      s.sent_bytes ≤ s'.sent_bytes) ∧
    (∀ fuel (data : List Nat) (s : MyTCPProtocol) (net : Net) n
      (s' : MyTCPProtocol) (net' : Net),
      SendWinOK s →
      MyTCPProtocol.send fuel data s net = .ok (some (n, s', net')) →
      n = s'.sent_bytes - s.sent_bytes) := by
  have hloop : ∀ fuel (data : List Nat) sdl att (s : MyTCPProtocol)
      (net : Net) (d' : List Nat) sdl' att' (s' : MyTCPProtocol)
      (net' : Net),
      SendWinOK s → att ≤ ack_crit_attempts →
      MyTCPProtocol.sendLoop fuel data sdl att s net =
        .ok (some (d', sdl', att', s', net')) →
      ((d' = [] ∧ s'.sent_bytes ≤ s'.confirmed_bytes) ∨
        att' = ack_crit_attempts) ∧
      sdl' = sdl + (s'.sent_bytes - s.sent_bytes) ∧
      s.sent_bytes ≤ s'.sent_bytes := by
    intro fuel
    induction fuel with
    | zero =>
      intro data sdl att s net d' sdl' att' s' net' hok hatt h
      simp only [MyTCPProtocol.sendLoop] at h
      split at h
      · exact absurd h (by simp)
      · rename_i hcond
        rw [Except.ok.injEq, Option.some.injEq, Prod.mk.injEq,
          Prod.mk.injEq, Prod.mk.injEq, Prod.mk.injEq] at h
        obtain ⟨hd, hsdl, hattEq, hs, hn⟩ := h
        subst hd hsdl hattEq hs hn
        refine ⟨?_, by omega, le_refl _⟩
        rcases not_and_or.mp hcond with h1 | h2
        · rcases not_or.mp h1 with ⟨h1a, h1b⟩
          exact Or.inl ⟨not_not.mp h1a, by omega⟩
        · exact Or.inr (by omega)
    | succ fuel ih =>
      intro data sdl att s net d' sdl' att' s' net' hok hatt h
      simp only [MyTCPProtocol.sendLoop] at h
      split at h
      · rename_i hcond
        split at h
        · rename_i hguard
          split at h
          · exact absurd h (by simp)
          · rename_i js s1 net1 heq1
            split at h
            · exact absurd h (by simp)
            · rename_i b s2 net2 heq2
              split at h
              · exact absurd h (by simp)
              · rename_i s3 net3 heq3
                obtain ⟨-, -, -, -, -, -, -, -, hadv, -, -, -⟩ :=
                  sendSegment_anatomy _ s net js s1 net1 heq1
                have hs1 : s1.sent_bytes = s.sent_bytes + js := hadv rfl
                have hok1 : SendWinOK s1 :=
                  sendSegment_preserves_sendWinOK _ s net js s1 net1 hok heq1
                obtain ⟨hok2, hs2⟩ :=
                  receiveSegment_sendWinOK s1 net1 b s2 net2 hok1 heq2
                obtain ⟨hok3, hs3⟩ :=
                  resendEarliest_sendWinOK false s2 net2 s3 net3 hok2 heq3
                obtain ⟨hexit, hsdl, hmono⟩ :=
                  ih _ _ _ s3 net3 d' sdl' att' s' net' hok3 hatt h
                refine ⟨hexit, by omega, by omega⟩
        · split at h
          · exact absurd h (by simp)
          · rename_i b s1 net1 heq1
            split at h
            · exact absurd h (by simp)
            · rename_i s2 net2 heq2
              obtain ⟨hok1, hs1⟩ :=
                receiveSegment_sendWinOK s net b s1 net1 hok heq1
              obtain ⟨hok2, hs2⟩ :=
                resendEarliest_sendWinOK false s1 net1 s2 net2 hok1 heq2
              have hatt1 : (if b then 0 else att + 1) ≤ ack_crit_attempts := by
                rcases hcond with ⟨-, hlt⟩
                split <;> omega
              obtain ⟨hexit, hsdl, hmono⟩ :=
                ih _ _ _ s2 net2 d' sdl' att' s' net' hok2 hatt1 h
              refine ⟨hexit, by omega, by omega⟩
      · rename_i hcond
        rw [Except.ok.injEq, Option.some.injEq, Prod.mk.injEq,
          Prod.mk.injEq, Prod.mk.injEq, Prod.mk.injEq] at h
        obtain ⟨hd, hsdl, hattEq, hs, hn⟩ := h
        subst hd hsdl hattEq hs hn
        refine ⟨?_, by omega, le_refl _⟩
        rcases not_and_or.mp hcond with h1 | h2
        · rcases not_or.mp h1 with ⟨h1a, h1b⟩
          exact Or.inl ⟨not_not.mp h1a, by omega⟩
        · exact Or.inr (by omega)
  refine ⟨hloop, ?_⟩
  intro fuel data s net n s' net' hok h
  obtain ⟨d', att', hloopEq⟩ := send_eq_sendLoop fuel data s net n s' net' h
  obtain ⟨-, hsdl, -⟩ := hloop fuel data 0 0 s net d' n att' s' net' hok
    (by unfold ack_crit_attempts; omega) hloopEq
  omega

/-- Witness for C3 (amended): the loop conjunct on a fresh endpoint with no
payload and an empty oracle (the loop exits immediately). -/
theorem C3_send_exit_and_count_witness :
    ((([] : List Nat) = [] ∧
        initEndpoint.sent_bytes ≤ initEndpoint.confirmed_bytes) ∨
      (0 : Nat) = ack_crit_attempts) ∧
    (0 : Nat) = 0 + (initEndpoint.sent_bytes - initEndpoint.sent_bytes) ∧
    initEndpoint.sent_bytes ≤ initEndpoint.sent_bytes :=
  C3_send_exit_and_count.1 1 [] 0 0 initEndpoint ⟨[], [], []⟩ [] 0 0
    initEndpoint ⟨[], [], []⟩
    (by intro g hg; exact absurd hg (by simp [initEndpoint]))
    (by unfold ack_crit_attempts; omega) rfl

/-! ## Claim C7: ACK-first processing order -/

/-- Modelled from the spec (§4.3, step 1): record the ACK field — when the
arriving segment's ack exceeds confirmed-bytes, update confirmed-bytes and
run the send-window sweep. -/
def recordAck (seg : TCPSegment) (s : MyTCPProtocol) : MyTCPProtocol :=
  if s.confirmed_bytes < seg.ack_number then
    { s with confirmed_bytes := seg.ack_number,
             send_window := shiftSendLoop s.send_window seg.ack_number }
  else s

/-- Modelled from the spec: `_receive_segment` processing in the order the
spec describes (§4.3): first record the ACK field, then, if the payload is
non-empty, insert the segment into the recv window and run the
receive-window sweep.  The code (lines 117-132) performs the two phases in
the opposite order; this definition exists to compare resulting states. -/
def MyTCPProtocol.receiveSegmentSpecOrder (s : MyTCPProtocol) (net : Net) :
    Except String (Bool × MyTCPProtocol × Net) :=
  match net.incoming with
  | [] => .ok (false, s, net)
  | none :: rest => .ok (false, s, { net with incoming := rest })
  | some d :: rest =>
    let seg := TCPSegment.load
      (d.take (max_segment_size + TCPSegment.service_len))
    let net1 : Net := { net with incoming := rest }
    let sA := recordAck seg s
    match (if seg.data = [] then .ok (sA, net1) else
        MyTCPProtocol.shiftRecvWindow
          { sA with recv_window := insertSorted seg sA.recv_window } net1) with
    | .error e => .error e
    | .ok (s2, net2) => .ok (true, s2, net2)

theorem sendSegment_empty_confsw_comm (seg : TCPSegment) (s : MyTCPProtocol)
    (net : Net) (c : Nat) (w : List TCPSegment) (hd : seg.data = []) :
    MyTCPProtocol.sendSegment seg
        { s with confirmed_bytes := c, send_window := w } net =
      (MyTCPProtocol.sendSegment seg s net).map
        (fun t => (t.1,
          { t.2.1 with confirmed_bytes := c, send_window := w }, t.2.2)) := by
  by_cases h1 : seg.seq_number = s.sent_bytes
  · simp [MyTCPProtocol.sendSegment, parkIfNonEmpty, hd, h1, Except.map]
  · by_cases h2 : s.sent_bytes < seg.seq_number
    · simp [MyTCPProtocol.sendSegment, hd, h1, h2, Except.map]
    · simp [MyTCPProtocol.sendSegment, parkIfNonEmpty, hd, h1, h2, Except.map]

theorem shiftRecvWindow_confsw_comm (s : MyTCPProtocol) (net : Net) (c : Nat)
    (w : List TCPSegment) :
    MyTCPProtocol.shiftRecvWindow
        { s with confirmed_bytes := c, send_window := w } net =
      (MyTCPProtocol.shiftRecvWindow s net).map
        (fun t =>
          ({ t.1 with confirmed_bytes := c, send_window := w }, t.2)) := by
  simp only [MyTCPProtocol.shiftRecvWindow]
  cases hlast : (shiftRecvLoop s.recv_window s.received_bytes s.buffer).last
  with
  | none => simp [Except.map]
  | some g =>
    by_cases hgd : g.data = []
    · simp [hgd, Except.map]
    · simp only [if_neg hgd]
      have hcomm := sendSegment_empty_confsw_comm
        ⟨s.sent_bytes,
          (shiftRecvLoop s.recv_window s.received_bytes s.buffer).received,
          [], false⟩
        { s with
          recv_window :=
            (shiftRecvLoop s.recv_window s.received_bytes s.buffer).window,
          received_bytes :=
            (shiftRecvLoop s.recv_window s.received_bytes s.buffer).received,
          buffer :=
            (shiftRecvLoop s.recv_window s.received_bytes s.buffer).buffer }
        net c w rfl
      rw [hcomm]
      cases heq : MyTCPProtocol.sendSegment
          ⟨s.sent_bytes,
            (shiftRecvLoop s.recv_window s.received_bytes s.buffer).received,
            [], false⟩
          { s with
            recv_window :=
              (shiftRecvLoop s.recv_window s.received_bytes s.buffer).window,
            received_bytes :=
              (shiftRecvLoop s.recv_window s.received_bytes s.buffer).received,
            buffer :=
              (shiftRecvLoop s.recv_window s.received_bytes s.buffer).buffer }
          net with
      | error e => simp [Except.map]
      | ok t =>
        obtain ⟨js, s2, net2⟩ := t
        simp [Except.map]

/-- C7: for every arriving datagram, the state `_receive_segment` produces
equals the state produced by processing in the spec's order: ACK recorded
first (updating confirmed-bytes and sweeping the send window — also when the
segment carries payload), then non-empty payload inserted into the recv
window followed by the receive-window sweep.  The code performs the phases
in the opposite order, but the two phases touch disjoint endpoint state, so
the resulting states coincide for every state and every oracle. -/
theorem C7_ack_first_equiv (s : MyTCPProtocol) (net : Net) :
    MyTCPProtocol.receiveSegment s net =
      MyTCPProtocol.receiveSegmentSpecOrder s net := by
  obtain ⟨inc, caps, exp⟩ := net
  cases inc with
  | nil => rfl
  | cons o rest =>
    cases o with
    | none => rfl
    | some d =>
      simp only [MyTCPProtocol.receiveSegment,
        MyTCPProtocol.receiveSegmentSpecOrder]
      set seg : TCPSegment := TCPSegment.load
        (d.take (max_segment_size + TCPSegment.service_len)) with hsegdef
      by_cases hd : seg.data = []
      · rw [if_pos hd, if_pos hd]
        dsimp only
        unfold recordAck
        by_cases hack : s.confirmed_bytes < seg.ack_number
        · rw [if_pos hack, if_pos hack]
        · rw [if_neg hack, if_neg hack]
      · rw [if_neg hd, if_neg hd]
        by_cases hack : s.confirmed_bytes < seg.ack_number
        · have hrA : recordAck seg s =
              { s with
                  confirmed_bytes := seg.ack_number,
                  send_window :=
                    shiftSendLoop s.send_window seg.ack_number } :=
            if_pos hack
          rw [hrA]
          dsimp only
          have hcomm := shiftRecvWindow_confsw_comm
            { s with recv_window := insertSorted seg s.recv_window }
            ⟨rest, caps, exp⟩ seg.ack_number
            (shiftSendLoop s.send_window seg.ack_number)
          rw [hcomm]
          cases heq : MyTCPProtocol.shiftRecvWindow
              { s with recv_window := insertSorted seg s.recv_window }
              ⟨rest, caps, exp⟩ with
          | error e => rfl
          | ok t =>
            obtain ⟨s2, net2⟩ := t
            obtain ⟨-, hconf2, hsw2, -, -, -, -, -⟩ :=
              shiftRecvWindow_anatomy _ _ _ _ heq
            dsimp only at hconf2 hsw2
            simp [Except.map, hconf2, hsw2, hack]
        · have hrA : recordAck seg s = s := if_neg hack
          rw [hrA]
          cases heq : MyTCPProtocol.shiftRecvWindow
              { s with recv_window := insertSorted seg s.recv_window }
              ⟨rest, caps, exp⟩ with
          | error e => rfl
          | ok t =>
            obtain ⟨s2, net2⟩ := t
            obtain ⟨-, hconf2, -, -, -, -, -, -⟩ :=
              shiftRecvWindow_anatomy _ _ _ _ heq
            dsimp only at hconf2
            simp [hconf2, hack]
